import Mathlib

/-!
Shallow embedding of the breakpoint/source reconciliation engine of the
`vscode-firefox-debug` debug adapter (src/adapter/adapter/source.ts) and of its
configuration parser, together with proofs settling the frozen claims about the
natural-language specification of the subsystem.

JavaScript strings are modelled as `List Char`; machine integers of the protocol
(lines, columns, ids) as `Nat`; `undefined` or `null` values as `Option`;
asynchronous remote calls as oracle parameters that decide whether each call
resolves or rejects, and a trace of the issued operations.
-/

set_option linter.unusedVariables false

namespace VsFirefoxDebug

/-- JavaScript strings, modelled as lists of characters. -/
abbrev JSStr := List Char

/-- `String.prototype.split` with a single-character separator:
`jsSplit sep s` returns the (always nonempty) list of separator-free groups,
exactly as JavaScript does (`"".split(c) = [""]`, `"a//b".split("/") = ["a","","b"]`). -/
def jsSplit (sep : Char) : JSStr → List JSStr
  | [] => [[]]
  | c :: rest =>
    let r := jsSplit sep rest
    if c = sep then [] :: r
    else (c :: r.headD []) :: r.tail

/-- `String.prototype.endsWith("/")`. -/
def jsEndsWithSlash (s : JSStr) : Bool := s.getLast? == some '/'

/-- JavaScript truthiness of a `string | undefined` value: `undefined` and the
empty string are falsy. -/
def jsTruthy : Option JSStr → Bool
  | none => false
  | some s => !s.isEmpty

/-- The JavaScript `a || b` idiom on a `string | undefined` value `a` with a
string default `b`. -/
def jsOrElse (a : Option JSStr) (b : JSStr) : JSStr :=
  match a with
  | some s => if s.isEmpty then b else s
  | none => b

/-! ## Path mappings (`harmonizeTrailingSlashes`, parseConfiguration.ts) -/

/-- The `url` field of a path mapping: `string | RegExp` in the source.
A `RegExp` is kept opaque (only its source text is carried). -/
inductive UrlValue
  | str (s : JSStr)
  | regex (source : JSStr)
deriving DecidableEq

/-- `type PathMapping = { url: string | RegExp, path: string | null }`. -/
structure PathMapping where
  url : UrlValue
  path : Option JSStr
deriving DecidableEq

/-- Embedding of `harmonizeTrailingSlashes` (parseConfiguration, lines 408-429):
when both `url` and `path` are strings, a trailing slash present on one side is
added to the other; any other mapping is returned unchanged. -/
def harmonizeTrailingSlashes (pm : PathMapping) : PathMapping :=
  match pm.url, pm.path with
  | .str u, some p =>
    if jsEndsWithSlash u then
      if jsEndsWithSlash p then ⟨.str u, some p⟩
      else ⟨.str u, some (p ++ ['/'])⟩
    else
      if jsEndsWithSlash p then ⟨.str (u ++ ['/']), some p⟩
      else ⟨.str u, some p⟩
  | _, _ => pm

/-- Whether the (string) url of a mapping ends with a slash. -/
def urlEndsSlash (pm : PathMapping) : Bool :=
  match pm.url with
  | .str u => jsEndsWithSlash u
  | .regex _ => false

/-- Whether the (string) path of a mapping ends with a slash. -/
def pathEndsSlash (pm : PathMapping) : Bool :=
  match pm.path with
  | some p => jsEndsWithSlash p
  | none => false

/-! ## Source display names (`SourceAdapter.createSource`, source.ts lines 43-57) -/

/-- The maximal digit suffix of an actor name: what `/[0-9]+$/.exec(name)` matches
(`[]` when the name does not end in a digit, in which case the regex does not match). -/
def trailingDigits (name : JSStr) : JSStr :=
  (name.reverse.takeWhile Char.isDigit).reverse

/-- Embedding of the `sourceName` computation of `SourceAdapter.createSource`
(source.ts lines 49-57): for a non-null url, `url.split('/').pop()!.split('#')[0]`;
otherwise, if the actor name ends in digits,
`` `${actor.source.introductionType || 'Script'} ${match[0]}` ``, else the initial `''`. -/
def createSourceName (url : Option JSStr) (actorName : JSStr)
    (introductionType : Option JSStr) : JSStr :=
  match url with
  | some u => (jsSplit '#' ((jsSplit '/' u).getLastD [])).headD []
  | none =>
    let ds := trailingDigits actorName
    if ds.isEmpty then []
    else jsOrElse introductionType "Script".toList ++ ' ' :: ds

/-! ## Breakpoint data model (source.ts, breakpoint.ts) -/

/-- A `{ line, column }` location of the Firefox debugging protocol. -/
structure SourceLocation where
  line : Nat
  column : Nat
deriving DecidableEq

/-- The position/condition/log-message of one breakpoint as requested by the
editor (the `requestedBreakpoint` carried by `BreakpointInfo`); `column`,
`condition` and `logMessage` are optional in the debug adapter protocol. -/
structure RequestedBreakpoint where
  line : Nat
  column : Option Nat
  condition : Option JSStr
  logMessage : Option JSStr
deriving DecidableEq

/-- One breakpoint descriptor: the requested breakpoint plus the actual
position, populated once the breakpoint has been applied. -/
structure BreakpointInfo where
  requestedBreakpoint : RequestedBreakpoint
  actualLine : Option Nat := none
  actualColumn : Option Nat := none
deriving DecidableEq

/-- Modelled from the spec: `BreakpointInfo.isEquivalent` is defined in the
repository's breakpoint.ts, which is not among the given sources. Per the spec,
two descriptors are equivalent iff their equivalence key — requested line,
column, condition and log-message together — matches. -/
def BreakpointInfo.isEquivalent (a b : BreakpointInfo) : Bool :=
  a.requestedBreakpoint == b.requestedBreakpoint

/-- Which of the two wire-protocol variants a breakpoint adapter was created for. -/
inductive BreakpointAdapterKind
  | oldProtocol
  | newProtocol
deriving DecidableEq

/-- A breakpoint that has been set in Firefox: the descriptor it corresponds to,
tagged by the protocol variant that installed it (the remote actor handle of the
legacy variant is irrelevant to the claims and omitted). -/
structure BreakpointAdapter where
  breakpointInfo : BreakpointInfo
  kind : BreakpointAdapterKind
deriving DecidableEq

/-- Result of the legacy `sourceActor.setBreakpoint` call: the runtime may or
may not report an actual location. -/
structure OldSetBreakpointResult where
  actualLocation : Option SourceLocation
deriving DecidableEq

/-- Outcomes of the asynchronous remote calls made during one reconciliation
run, supplied from the outside: whether each `breakpointAdapter.delete()`
resolves, the list returned by `sourceActor.getBreakpointPositions()`, whether
each modern-protocol `threadActor.setBreakpoint` resolves, and the result (or
rejection, `none`) of each legacy `sourceActor.setBreakpoint`. -/
structure RemoteOracle where
  deleteOk : BreakpointInfo → Bool
  breakpointPositions : List SourceLocation
  setBreakpointOk : BreakpointInfo → Bool
  setBreakpointOld : BreakpointInfo → Option OldSetBreakpointResult

/-- The position-resolution collaborator `findNextBreakpointPosition`
(sourceMaps/info.ts, consumed by source.ts but external to it): any function
from requested line, requested column and candidate positions to a position. -/
abbrev FindPosition := Nat → Nat → List SourceLocation → SourceLocation

/-- Observable events of a reconciliation run: a run starting (capturing the
desired set it observes), remote operations being issued and settling,
verification notifications, and the run finishing (after merging the installed
set and clearing the in-flight flag). -/
inductive Ev
  | runStart (observed : List BreakpointInfo)
  | issueDelete (b : BreakpointInfo)
  | completeDelete (b : BreakpointInfo)
  | rejectDelete (b : BreakpointInfo)
  | getPositions
  | issueAdd (b : BreakpointInfo)
  | completeAdd (b : BreakpointInfo)
  | rejectAdd (b : BreakpointInfo)
  | verify (b : BreakpointInfo) (line : Option Nat) (column : Option Nat)
  | runEnd
deriving DecidableEq

/-- A JavaScript runtime fault of the reconciliation code itself: a `TypeError`
(method call on `undefined`), or an unhandled rejection of an awaited
`Promise.all`. -/
inductive JsError
  | typeError
  | promiseRejection
deriving DecidableEq

/-- Where an in-flight `syncBreakpoints` run is suspended: at one of its `await`
points, finished (`idle`), or aborted by a fault. The captured locals of the run
are carried in the phase. A `none` desired set in `atDeletions` records that the
run captured `undefined` (the `this.desiredBreakpoints!` assertion was wrong). -/
inductive Phase
  | idle
  | atDeletions (desired : Option (List BreakpointInfo))
      (keep toDelete : List BreakpointAdapter)
  | atPositions (keep : List BreakpointAdapter) (toAdd : List BreakpointInfo)
  | atAdditionsNew (keep : List BreakpointAdapter) (toAdd : List BreakpointInfo)
  | atAdditionsOld (keep : List BreakpointAdapter) (toAdd : List BreakpointInfo)
  | faulted (e : JsError)
deriving DecidableEq

/-- The mutable state of one `SourceAdapter` (fields named as in source.ts),
extended with the suspension phase of the in-flight run and the trace of
observable events so far. -/
structure MState where
  currentBreakpoints : List BreakpointAdapter
  desiredBreakpoints : Option (List BreakpointInfo)
  isSyncingBreakpoints : Bool
  phase : Phase
  trace : List Ev
deriving DecidableEq

/-- The breakpoints to keep: those current breakpoints for which
`desiredBreakpoints.some(r => r.isEquivalent(current.breakpointInfo))` holds
(source.ts lines 113-123). -/
def keepOf (current : List BreakpointAdapter) (D : List BreakpointInfo) :
    List BreakpointAdapter :=
  current.filter (fun c => D.any (fun r => r.isEquivalent c.breakpointInfo))

/-- The breakpoints to delete: the complementary part of the partition
(source.ts lines 113-123). -/
def toDeleteOf (current : List BreakpointAdapter) (D : List BreakpointInfo) :
    List BreakpointAdapter :=
  current.filter (fun c => !(D.any (fun r => r.isEquivalent c.breakpointInfo)))

/-- The desired breakpoints to add: those without an equivalent among
`this.currentBreakpoints` — the field, which at that point still holds the
pre-run installed set (source.ts lines 134-138). -/
def toAddOf (current : List BreakpointAdapter) (D : List BreakpointInfo) :
    List BreakpointInfo :=
  D.filter (fun d => !(current.any (fun c => d.isEquivalent c.breakpointInfo)))

/-- The modern-protocol position resolution of one breakpoint to add
(source.ts lines 150-156): `findNextBreakpointPosition(requested.line,
requested.column || 0, breakpointPositions)`, written into the descriptor's
actual line/column. -/
def resolveNew (findPos : FindPosition) (positions : List SourceLocation)
    (d : BreakpointInfo) : BreakpointInfo :=
  let loc := findPos d.requestedBreakpoint.line (d.requestedBreakpoint.column.getD 0)
    positions
  { d with actualLine := some loc.line, actualColumn := some loc.column }

/-- The actual line reported for a legacy-protocol addition (source.ts line 208):
`actualLocation ? actualLocation.line : desiredBreakpoint.requestedBreakpoint.line`. -/
def oldActualLine (r : OldSetBreakpointResult) (d : BreakpointInfo) : Nat :=
  match r.actualLocation with
  | some loc => loc.line
  | none => d.requestedBreakpoint.line

/-- The actual column reported for a legacy-protocol addition (source.ts line 209):
`actualLocation ? actualLocation.column : desiredBreakpoint.requestedBreakpoint.column`. -/
def oldActualColumn (r : OldSetBreakpointResult) (d : BreakpointInfo) : Option Nat :=
  match r.actualLocation with
  | some loc => some loc.column
  | none => d.requestedBreakpoint.column

/-- Modelled from the spec: the `OldProtocolBreakpointAdapter` constructor lives
in the repository's breakpoint.ts, which is not among the given sources. Per the
spec the descriptor's actual line/column are "populated only after successful
application", so the adapter built for a newly added legacy-protocol breakpoint
stores the resolved actual position on its descriptor. -/
def OldProtocolBreakpointAdapter.make (d : BreakpointInfo) (r : OldSetBreakpointResult) :
    BreakpointAdapter :=
  { breakpointInfo :=
      { d with actualLine := some (oldActualLine r d), actualColumn := oldActualColumn r d },
    kind := .oldProtocol }

/-! ## The reconciliation machine (`SourceAdapter`, source.ts lines 73-223)

One `syncBreakpoints` run is cut at its `await` points into synchronous
segments. `doStart` is the segment from entry (line 108) to the first await
(line 131); `resumeStep` executes the segment that runs when the currently
awaited promise settles. JavaScript's single-threaded execution means nothing
else can interleave inside a segment. -/

/-- How one issued deletion settles: `breakpointAdapter.delete()` resolves or
rejects, as the oracle decides. -/
def settleDelete (oracle : RemoteOracle) (c : BreakpointAdapter) : Ev :=
  if oracle.deleteOk c.breakpointInfo then Ev.completeDelete c.breakpointInfo
  else Ev.rejectDelete c.breakpointInfo

/-- How one issued modern-protocol addition settles. -/
def settleAddNew (oracle : RemoteOracle) (d : BreakpointInfo) : Ev :=
  if oracle.setBreakpointOk d then Ev.completeAdd d else Ev.rejectAdd d

/-- How one issued legacy-protocol addition settles. -/
def settleAddOld (oracle : RemoteOracle) (d : BreakpointInfo) : Ev :=
  if (oracle.setBreakpointOld d).isSome then Ev.completeAdd d else Ev.rejectAdd d

/-- Lines 106-131 of `syncBreakpoints`: set the in-flight flag, capture and
clear `this.desiredBreakpoints` (through a non-null assertion: when it is
`undefined` and the installed set is nonempty, the partition loop's
`desiredBreakpoints.some(...)` call throws a `TypeError` at once; when the
installed set is empty the loop body never runs and the fault is deferred to the
segment after the first await), partition the installed set into keep/delete,
issue all deletions and suspend at `await Promise.all(deletionPromises)`. -/
def doStart (st : MState) : MState :=
  let st := { st with isSyncingBreakpoints := true }
  match st.desiredBreakpoints with
  | none =>
    if st.currentBreakpoints.isEmpty then
      { st with desiredBreakpoints := none, phase := .atDeletions none [] [] }
    else
      { st with desiredBreakpoints := none, phase := .faulted .typeError }
  | some D =>
    { st with
      desiredBreakpoints := none,
      phase := .atDeletions (some D) (keepOf st.currentBreakpoints D)
        (toDeleteOf st.currentBreakpoints D),
      trace := st.trace ++ Ev.runStart D ::
        (toDeleteOf st.currentBreakpoints D).map (fun c => Ev.issueDelete c.breakpointInfo) }

/-- `checkAndSyncBreakpoints` (source.ts lines 92-100) for the modern protocol:
if a desired set is pending and no run is in flight, start `syncBreakpoints`
synchronously (the legacy variant instead schedules the run on the pause
coordinator, which is outside the given sources). -/
def checkAndSyncNew (st : MState) : MState :=
  if st.desiredBreakpoints.isSome && !st.isSyncingBreakpoints then doStart st else st

/-- One `await` of the in-flight run settling, followed by the next synchronous
segment of `syncBreakpoints`:

* at `await Promise.all(deletionPromises)` (line 131): every issued deletion
  settles; if any rejected, `Promise.all` rejects and the rest of the run is
  skipped (the in-flight flag is never cleared). Otherwise `breakpointsToAdd` is
  computed against the still-unchanged `this.currentBreakpoints` (line 134), and
  the run proceeds to `await this.actor.getBreakpointPositions()` (line 145,
  modern protocol) or issues the legacy additions and suspends at their
  `Promise.all` (lines 192-199);
* at `await getBreakpointPositions` (line 145): each addition's callback runs
  synchronously up to its `setBreakpoint` call — resolving the actual position
  and writing it into the descriptor (lines 150-156) — so all additions are
  issued, and the run suspends at `await Promise.all(additionPromises)`
  (line 173);
* at an additions `Promise.all` (line 173 or 199): every addition settles; a
  rejection again aborts the run; otherwise the verification notifications are
  emitted, the adapters are built, the installed set is merged (line 219), the
  in-flight flag cleared (line 220) and `checkAndSyncBreakpoints` re-checked
  (line 222 — synchronously starting the next run under the modern protocol). -/
def resumeStep (newBreakpointProtocol : Bool) (findPos : FindPosition)
    (oracle : RemoteOracle) (st : MState) : MState :=
  match st.phase with
  | .idle => st
  | .faulted _ => st
  | .atDeletions none _ _ =>
    { st with phase := .faulted .typeError }
  | .atDeletions (some D) keep toDelete =>
    let st := { st with trace := st.trace ++ toDelete.map (settleDelete oracle) }
    if toDelete.all (fun c => oracle.deleteOk c.breakpointInfo) then
      let toAdd := toAddOf st.currentBreakpoints D
      if newBreakpointProtocol then
        { st with trace := st.trace ++ [Ev.getPositions], phase := .atPositions keep toAdd }
      else
        { st with trace := st.trace ++ toAdd.map Ev.issueAdd,
                  phase := .atAdditionsOld keep toAdd }
    else
      { st with phase := .faulted .promiseRejection }
  | .atPositions keep toAdd =>
    let resolved := toAdd.map (resolveNew findPos oracle.breakpointPositions)
    { st with trace := st.trace ++ resolved.map Ev.issueAdd,
              phase := .atAdditionsNew keep resolved }
  | .atAdditionsNew keep resolved =>
    let st := { st with trace := st.trace ++ resolved.map (settleAddNew oracle) }
    if resolved.all oracle.setBreakpointOk then
      checkAndSyncNew
        { st with
          trace := st.trace ++ resolved.map (fun d => Ev.verify d d.actualLine d.actualColumn)
            ++ [Ev.runEnd],
          currentBreakpoints := keep ++ resolved.map (fun d => BreakpointAdapter.mk d .newProtocol),
          isSyncingBreakpoints := false,
          phase := .idle }
    else
      { st with phase := .faulted .promiseRejection }
  | .atAdditionsOld keep toAdd =>
    let st := { st with trace := st.trace ++ toAdd.map (settleAddOld oracle) }
    if toAdd.all (fun d => (oracle.setBreakpointOld d).isSome) then
      let results := toAdd.map (fun d => ((oracle.setBreakpointOld d).getD ⟨none⟩, d))
      { st with
        trace := st.trace ++ results.map (fun rd =>
          Ev.verify rd.2 (some (oldActualLine rd.1 rd.2)) (oldActualColumn rd.1 rd.2))
          ++ [Ev.runEnd],
        currentBreakpoints := keep ++ results.map (fun rd =>
          OldProtocolBreakpointAdapter.make rd.2 rd.1),
        isSyncingBreakpoints := false,
        phase := .idle }
    else
      { st with phase := .faulted .promiseRejection }

/-- One complete, isolated `syncBreakpoints` run on a source with installed set
`current` and pending desired set `desired`: the entry segment followed by (at
most three) await-settlement segments; once the run is `idle` or `faulted`,
further `resumeStep`s are the identity. -/
def runSync (newBreakpointProtocol : Bool) (findPos : FindPosition)
    (oracle : RemoteOracle) (current : List BreakpointAdapter)
    (desired : Option (List BreakpointInfo)) : MState :=
  let r := resumeStep newBreakpointProtocol findPos oracle
  r (r (r (doStart
    { currentBreakpoints := current, desiredBreakpoints := desired,
      isSyncingBreakpoints := false, phase := .idle, trace := [] })))

/-- `SourceAdapter.updateBreakpoints` (source.ts lines 73-76) under the modern
protocol: store the new desired set and run `checkAndSyncBreakpoints`. -/
def updateBreakpoints (S : List BreakpointInfo) (st : MState) : MState :=
  checkAndSyncNew { st with desiredBreakpoints := some S }

/-- A source adapter at rest: installed set `current`, nothing pending, no run
in flight. -/
def initState (current : List BreakpointAdapter) : MState :=
  { currentBreakpoints := current, desiredBreakpoints := none,
    isSyncingBreakpoints := false, phase := .idle, trace := [] }

/-- The back-to-back submission scenario under the modern protocol: two
`updateBreakpoints` calls in the same synchronous turn (the first starts a run
that suspends at its first await; the second finds `isSyncingBreakpoints` set),
followed by the microtask resumptions of the in-flight run — the third of which
merges the first run's result and, finding the second desired set pending,
synchronously starts the second run, which the last three resumptions complete. -/
def backToBack (findPos : FindPosition) (oracle : RemoteOracle)
    (current : List BreakpointAdapter) (S1 S2 : List BreakpointInfo) : MState :=
  let r := resumeStep true findPos oracle
  r (r (r (r (r (r (updateBreakpoints S2 (updateBreakpoints S1 (initState current))))))))

end VsFirefoxDebug


namespace VsFirefoxDebug

/-! ## Claim C10: `harmonizeTrailingSlashes` -/

lemma jsEndsWithSlash_append_slash (s : JSStr) : jsEndsWithSlash (s ++ ['/']) = true := by
  simp [jsEndsWithSlash, List.getLast?_concat]

/-- C10. `harmonizeTrailingSlashes` normalizes slash agreement and is idempotent:
for a mapping whose url and path are both strings, the result's url ends with a
slash iff its path does; a trailing slash present in the input is never removed;
mappings with a non-string url or a null path are returned unchanged; and the
function is idempotent. -/
theorem harmonizeTrailingSlashes_spec :
    (∀ u p, urlEndsSlash (harmonizeTrailingSlashes ⟨.str u, some p⟩)
      = pathEndsSlash (harmonizeTrailingSlashes ⟨.str u, some p⟩))
    ∧ (∀ u p, (jsEndsWithSlash u = true →
        urlEndsSlash (harmonizeTrailingSlashes ⟨.str u, some p⟩) = true)
      ∧ (jsEndsWithSlash p = true →
        pathEndsSlash (harmonizeTrailingSlashes ⟨.str u, some p⟩) = true))
    ∧ (∀ pm : PathMapping, (∀ r, pm.url = .regex r → harmonizeTrailingSlashes pm = pm)
      ∧ (pm.path = none → harmonizeTrailingSlashes pm = pm))
    ∧ (∀ pm : PathMapping,
        harmonizeTrailingSlashes (harmonizeTrailingSlashes pm) = harmonizeTrailingSlashes pm) := by
  have hu : ∀ u p, urlEndsSlash (harmonizeTrailingSlashes ⟨.str u, some p⟩)
      = pathEndsSlash (harmonizeTrailingSlashes ⟨.str u, some p⟩) := by
    intro u p
    by_cases hu : jsEndsWithSlash u = true <;> by_cases hp : jsEndsWithSlash p = true <;>
      simp [harmonizeTrailingSlashes, urlEndsSlash, pathEndsSlash, hu, hp,
        jsEndsWithSlash_append_slash]
  refine ⟨hu, ?_, ?_, ?_⟩
  · intro u p
    constructor
    · intro h
      by_cases hp : jsEndsWithSlash p = true <;>
        simp [harmonizeTrailingSlashes, urlEndsSlash, h, hp]
    · intro h
      by_cases hu : jsEndsWithSlash u = true <;>
        simp [harmonizeTrailingSlashes, pathEndsSlash, h, hu]
  · intro pm
    constructor
    · intro r h
      obtain ⟨url, path⟩ := pm
      cases h
      cases path <;> simp [harmonizeTrailingSlashes]
    · intro h
      obtain ⟨url, path⟩ := pm
      cases h
      cases url <;> simp [harmonizeTrailingSlashes]
  · intro pm
    obtain ⟨url, path⟩ := pm
    cases url with
    | regex r => cases path <;> simp [harmonizeTrailingSlashes]
    | str u =>
      cases path with
      | none => simp [harmonizeTrailingSlashes]
      | some p =>
        by_cases hu : jsEndsWithSlash u = true <;> by_cases hp : jsEndsWithSlash p = true <;>
          simp [harmonizeTrailingSlashes, hu, hp, jsEndsWithSlash_append_slash]

/-- Witness for C10 at concrete inputs: url `"a"`, path `"b/"` get harmonized
to agreeing trailing slashes, input slashes survive, a regex mapping is
unchanged, and a second application changes nothing. -/
theorem harmonizeTrailingSlashes_spec_witness :
    urlEndsSlash (harmonizeTrailingSlashes ⟨.str "a".toList, some "b/".toList⟩)
      = pathEndsSlash (harmonizeTrailingSlashes ⟨.str "a".toList, some "b/".toList⟩)
    ∧ pathEndsSlash (harmonizeTrailingSlashes ⟨.str "a".toList, some "b/".toList⟩) = true
    ∧ harmonizeTrailingSlashes ⟨.regex "x".toList, some "b".toList⟩
      = ⟨.regex "x".toList, some "b".toList⟩
    ∧ harmonizeTrailingSlashes (harmonizeTrailingSlashes ⟨.str "a".toList, some "b/".toList⟩)
      = harmonizeTrailingSlashes ⟨.str "a".toList, some "b/".toList⟩ :=
  ⟨harmonizeTrailingSlashes_spec.1 "a".toList "b/".toList,
   (harmonizeTrailingSlashes_spec.2.1 "a".toList "b/".toList).2 (by decide),
   (harmonizeTrailingSlashes_spec.2.2.1 ⟨.regex "x".toList, some "b".toList⟩).1 "x".toList rfl,
   harmonizeTrailingSlashes_spec.2.2.2 ⟨.str "a".toList, some "b/".toList⟩⟩

end VsFirefoxDebug

namespace VsFirefoxDebug

/-! ## Claim C8: source display names -/

lemma jsSplit_ne_nil (sep : Char) (l : JSStr) : jsSplit sep l ≠ [] := by
  cases l with
  | nil => simp [jsSplit]
  | cons c rest => by_cases h : c = sep <;> simp [jsSplit, h]

lemma jsSplit_headD (sep : Char) (l : JSStr) :
    (jsSplit sep l).headD [] = l.takeWhile (· != sep) := by
  induction l with
  | nil => simp [jsSplit]
  | cons c rest ih =>
    by_cases h : c = sep
    · simp [jsSplit, h, List.takeWhile_cons]
    · have hs : jsSplit sep (c :: rest)
          = (c :: (jsSplit sep rest).headD []) :: (jsSplit sep rest).tail := by
        simp [jsSplit, h]
      rw [hs]
      rw [List.headD_eq_head?] at ih
      simp [List.takeWhile_cons, h, ih]

lemma jsSplit_of_not_mem (sep : Char) (l : JSStr) (h : sep ∉ l) : jsSplit sep l = [l] := by
  induction l with
  | nil => simp [jsSplit]
  | cons c rest ih =>
    have hc : c ≠ sep := fun hh => h (hh ▸ List.mem_cons_self c rest)
    have hr : sep ∉ rest := fun hh => h (List.mem_cons_of_mem c hh)
    simp [jsSplit, hc, ih hr]

lemma jsSplit_tail_ne_nil (sep : Char) (l : JSStr) (h : sep ∈ l) :
    (jsSplit sep l).tail ≠ [] := by
  induction l with
  | nil => cases h
  | cons c rest ih =>
    by_cases hc : c = sep
    · simp [jsSplit, hc, jsSplit_ne_nil]
    · have hr : sep ∈ rest := by
        cases List.mem_cons.mp h with
        | inl hh => exact absurd hh.symm hc
        | inr hh => exact hh
      simp [jsSplit, hc]
      exact ih hr

lemma takeWhile_append_of_exists_false (p : Char → Bool) (l l2 : JSStr)
    (h : ∃ y ∈ l, p y = false) : (l ++ l2).takeWhile p = l.takeWhile p := by
  induction l with
  | nil =>
    obtain ⟨y, hy, _⟩ := h
    cases hy
  | cons a l ih =>
    by_cases ha : p a = true
    · have : ∃ y ∈ l, p y = false := by
        obtain ⟨y, hy, hpy⟩ := h
        cases List.mem_cons.mp hy with
        | inl hh => rw [hh] at hpy; rw [ha] at hpy; cases hpy
        | inr hh => exact ⟨y, hh, hpy⟩
      simp [List.takeWhile_cons, ha, ih this]
    · simp [List.takeWhile_cons, Bool.of_not_eq_true ha]

lemma takeWhile_append_singleton_false (p : Char → Bool) (l : JSStr) (x : Char)
    (h : p x = false) : (l ++ [x]).takeWhile p = l.takeWhile p := by
  induction l with
  | nil => simp [List.takeWhile_cons, h]
  | cons a l ih =>
    by_cases ha : p a = true
    · simp [List.takeWhile_cons, ha, ih]
    · simp [List.takeWhile_cons, Bool.of_not_eq_true ha]

lemma getLastD_default_irrelevant (t : List JSStr) (d1 d2 : JSStr) (h : t ≠ []) :
    t.getLastD d1 = t.getLastD d2 := by
  rw [List.getLastD_eq_getLast?, List.getLastD_eq_getLast?]
  cases hq : t.getLast? with
  | none => exact absurd (List.getLast?_eq_none_iff.mp hq) h
  | some x => rfl

lemma jsSplit_getLastD (sep : Char) (l : JSStr) :
    (jsSplit sep l).getLastD [] = (l.reverse.takeWhile (· != sep)).reverse := by
  induction l with
  | nil => simp [jsSplit]
  | cons c rest ih =>
    by_cases hc : c = sep
    · have h1 : jsSplit sep (c :: rest) = [] :: jsSplit sep rest := by simp [jsSplit, hc]
      have h2 : ((c : Char) != sep) = false := by simp [hc]
      rw [h1, List.getLastD_cons, List.reverse_cons,
        takeWhile_append_singleton_false (fun y => y != sep) rest.reverse c h2, ih]
    · have hs : jsSplit sep (c :: rest)
          = (c :: (jsSplit sep rest).headD []) :: (jsSplit sep rest).tail := by
        simp [jsSplit, hc]
      by_cases hm : sep ∈ rest
      · have ht := jsSplit_tail_ne_nil sep rest hm
        have hex : ∃ y ∈ rest.reverse, (y != sep) = false := by
          exact ⟨sep, List.mem_reverse.mpr hm, by simp⟩
        rw [hs, List.reverse_cons, takeWhile_append_of_exists_false _ _ _ hex, ← ih]
        cases hr : jsSplit sep rest with
        | nil => exact absurd hr (jsSplit_ne_nil sep rest)
        | cons h0 t0 =>
          have ht0 : t0 ≠ [] := by
            rw [hr] at ht
            exact ht
          simp only [List.headD_cons, List.tail_cons, List.getLastD_cons]
          exact getLastD_default_irrelevant t0 (c :: h0) h0 ht0
      · have hrew := jsSplit_of_not_mem sep rest hm
        have hall : ∀ y ∈ rest.reverse ++ [c], (y != sep) = true := by
          intro y hy
          cases List.mem_append.mp hy with
          | inl hh =>
            have : y ∈ rest := List.mem_reverse.mp hh
            simp only [bne_iff_ne, ne_eq]
            exact fun hcon => hm (hcon ▸ this)
          | inr hh =>
            simp only [List.mem_singleton.mp hh, bne_iff_ne, ne_eq]
            exact hc
        rw [hs, hrew]
        simp only [List.headD_cons, List.tail_cons, List.getLastD_cons, List.getLastD_nil]
        rw [List.reverse_cons, List.takeWhile_eq_self_iff.mpr hall]
        simp

/-! Spec-side description of the display name (what the amended claim states):
the last url path segment is the maximal `'/'`-free suffix of the url, and the
fragment — everything from the first `'#'` of that segment on — is stripped;
a query string is not stripped. -/

/-- The maximal `'/'`-free suffix of a url: its last path segment. -/
def lastUrlSegment (u : JSStr) : JSStr := (u.reverse.takeWhile (· != '/')).reverse

/-- A segment truncated at its first `'#'`: the fragment is stripped. -/
def stripFragment (s : JSStr) : JSStr := s.takeWhile (· != '#')

/-- A segment truncated at its first `'?'`: what stripping the query string
(as the original claim says) would produce. -/
def stripQuery (s : JSStr) : JSStr := s.takeWhile (· != '?')

/-- The display name as the amended claim describes it: for a source with a url,
the last path segment with the fragment stripped; for one without, the
introduction-type label (defaulting to `Script`) and the trailing digits of the
actor name when there are any, and the empty string otherwise. -/
def specSourceName (url : Option JSStr) (actorName : JSStr)
    (introductionType : Option JSStr) : JSStr :=
  match url with
  | some u => stripFragment (lastUrlSegment u)
  | none =>
    if (trailingDigits actorName).isEmpty then []
    else jsOrElse introductionType "Script".toList ++ ' ' :: trailingDigits actorName

/-- C8, counterexample: for the url `http://x/a.js?v=1` the code keeps the query
string (`createSource` splits the last segment at `'#'`, the fragment separator,
not at `'?'`), so the display name is not the query-stripped last segment; and
for a source without url whose actor name ends in no digit, the display name is
the empty string, not a label-and-digits combination. -/
theorem createSourceName_counterexample :
    createSourceName (some "http://x/a.js?v=1".toList) "src1".toList none
      ≠ stripQuery (lastUrlSegment "http://x/a.js?v=1".toList)
    ∧ createSourceName (some "http://x/a.js?v=1".toList) "src1".toList none
      = "a.js?v=1".toList
    ∧ createSourceName none "sourceActor".toList (some "eval".toList) = [] := by
  refine ⟨?_, ?_, ?_⟩ <;> decide

/-- C8, amended: the editor-visible display name is, for a source with a
non-null url, the last `'/'`-segment of the url truncated at the first `'#'`
(fragment stripped — a query string is kept); for a source without url it is
the introduction-type label (defaulting to `Script`) followed by a blank and
the maximal digit suffix of the actor name when that suffix is nonempty, and
the empty string otherwise. -/
theorem createSourceName_spec (url : Option JSStr) (actorName : JSStr)
    (introductionType : Option JSStr) :
    createSourceName url actorName introductionType
      = specSourceName url actorName introductionType := by
  cases url with
  | none => rfl
  | some u =>
    show (jsSplit '#' ((jsSplit '/' u).getLastD [])).headD []
      = stripFragment (lastUrlSegment u)
    rw [jsSplit_headD, jsSplit_getLastD]
    rfl

/-! ## Claim C9: configuration errors are fatal (parseConfiguration.ts) -/

/-- The `request` discriminator of a launch/attach configuration. -/
inductive RequestKind
  | launch
  | attach
deriving DecidableEq

/-- The fields of a user-supplied launch/attach configuration that the
launch-phase error checks read (configuration.ts; the remaining fields are
consumed only by the later phases, which the claim abstracts over). -/
structure DebugConfiguration where
  request : RequestKind
  file : Option JSStr := none
  url : Option JSStr := none
  addonPath : Option JSStr := none
  profile : Option JSStr := none
  profileDir : Option JSStr := none
  keepProfileChanges : Bool := false
  reAttach : Bool := false
  firefoxExecutable : Option JSStr := none

/-- The external effects the launch phase awaits: `findFirefoxExecutable`
(a filesystem search that resolves with a path or rejects with a user-visible
message), `findFirefoxProfileDir` (the `FirefoxProfile.Finder` callback),
`os.tmpdir()`-based fresh profile directory naming, and `path.isAbsolute`. -/
structure ConfigOracles where
  findExecutable : Option JSStr → Except JSStr JSStr
  findProfileDir : JSStr → Except JSStr JSStr
  tmpProfileDir : JSStr
  isAbsolutePath : JSStr → Bool

def msgProfileBoth : JSStr :=
  "You can set either \"profile\" or \"profileDir\", but not both".toList

def msgKeepProfileChanges : JSStr :=
  "To enable \"keepProfileChanges\" you need to set either \"profile\" or \"profileDir\"".toList

def msgFileAbsolute : JSStr :=
  "The \"file\" property in the launch configuration has to be an absolute path".toList

def msgFileOrUrl : JSStr :=
  "You need to set either \"file\" or \"url\" in the launch configuration".toList

/-- Embedding of `parseProfileConfiguration` (parseConfiguration.ts lines
482-510): rejects when both `profile` and `profileDir` are set; resolves the
source profile directory; rejects when `keepProfileChanges` is set without a
source profile directory; otherwise produces a fresh temporary profile
directory. Returns `(profileDir, srcProfileDir)`. -/
def parseProfileConfiguration (config : DebugConfiguration) (eff : ConfigOracles) :
    Except JSStr (JSStr × Option JSStr) :=
  let srcRes : Except JSStr (Option JSStr) :=
    if jsTruthy config.profileDir then
      if jsTruthy config.profile then Except.error msgProfileBoth
      else Except.ok config.profileDir
    else if jsTruthy config.profile then
      match eff.findProfileDir (config.profile.getD []) with
      | Except.error e => Except.error e
      | Except.ok p => Except.ok (some p)
    else Except.ok none
  match srcRes with
  | Except.error e => Except.error e
  | Except.ok srcProfileDir =>
    if config.keepProfileChanges then
      if jsTruthy srcProfileDir then Except.ok (srcProfileDir.getD [], none)
      else Except.error msgKeepProfileChanges
    else Except.ok (eff.tmpProfileDir, srcProfileDir)

/-- What the launch/attach phase of `parseConfiguration` (lines 297-370)
produces before the remaining, error-irrelevant phases run. -/
inductive LaunchPhaseResult
  | launched (firefoxExecutable profileDir : JSStr) (srcProfileDir : Option JSStr)
  | attachOnly
deriving DecidableEq

/-- Embedding of the launch branch of `parseConfiguration` (lines 308-362) and
the attach branch (lines 364-370): for a launch request, find the Firefox
executable, parse the profile configuration, then require one of `file`
(which must be an absolute path), `url` or `addonPath`. -/
def parseConfigurationMain (config : DebugConfiguration) (eff : ConfigOracles) :
    Except JSStr LaunchPhaseResult :=
  match config.request with
  | .attach => Except.ok .attachOnly
  | .launch =>
    match eff.findExecutable config.firefoxExecutable with
    | Except.error e => Except.error e
    | Except.ok firefoxExecutable =>
      match parseProfileConfiguration config eff with
      | Except.error e => Except.error e
      | Except.ok pd =>
        if jsTruthy config.file then
          if !eff.isAbsolutePath (config.file.getD []) then Except.error msgFileAbsolute
          else Except.ok (.launched firefoxExecutable pd.1 pd.2)
        else if jsTruthy config.url then Except.ok (.launched firefoxExecutable pd.1 pd.2)
        else if jsTruthy config.addonPath then Except.ok (.launched firefoxExecutable pd.1 pd.2)
        else Except.error msgFileOrUrl

/-- `parseConfiguration` as a whole: the launch/attach phase above, followed by
the remaining phases (path mappings, addon configuration, web root, files to
skip, reload normalization), abstracted as an arbitrary continuation `rest` —
an error thrown in the launch phase rejects the returned promise no matter what
the remainder would do. -/
def parseConfiguration {A : Type} (config : DebugConfiguration) (eff : ConfigOracles)
    (rest : LaunchPhaseResult → Except JSStr A) : Except JSStr A :=
  match parseConfigurationMain config eff with
  | Except.error e => Except.error e
  | Except.ok r => rest r

/-- C9. Conflicting or incomplete launch options are fatal: `parseConfiguration`
rejects with a user-visible message (it never returns a parsed configuration,
whatever the later phases and the external lookups do) when both `profile` and
`profileDir` are set, when `keepProfileChanges` is set without either of them,
and when a launch configuration sets none of `file`, `url` and `addonPath`. -/
theorem parseConfiguration_rejects_invalid {A : Type} (config : DebugConfiguration)
    (eff : ConfigOracles) (rest : LaunchPhaseResult → Except JSStr A)
    (hreq : config.request = .launch)
    (hbad : (jsTruthy config.profile = true ∧ jsTruthy config.profileDir = true)
      ∨ (config.keepProfileChanges = true
          ∧ jsTruthy config.profile = false ∧ jsTruthy config.profileDir = false)
      ∨ (jsTruthy config.file = false ∧ jsTruthy config.url = false
          ∧ jsTruthy config.addonPath = false)) :
    ∃ msg, parseConfiguration config eff rest = Except.error msg := by
  unfold parseConfiguration parseConfigurationMain
  rw [hreq]
  cases hexe : eff.findExecutable config.firefoxExecutable with
  | error e => exact ⟨e, rfl⟩
  | ok exe =>
    rcases hbad with ⟨hp, hpd⟩ | ⟨hk, hp, hpd⟩ | ⟨hf, hu, ha⟩
    · refine ⟨msgProfileBoth, ?_⟩
      simp [parseProfileConfiguration, hp, hpd]
    · refine ⟨msgKeepProfileChanges, ?_⟩
      have hnone : jsTruthy none = false := rfl
      simp [parseProfileConfiguration, hp, hpd, hk, hnone]
    · cases hprof : parseProfileConfiguration config eff with
      | error e => simp [hprof]
      | ok pd =>
        refine ⟨msgFileOrUrl, ?_⟩
        simp [hprof, hf, hu, ha]

/-- Witness for C9: a launch configuration with both `profile` and `profileDir`
set is rejected; one with none of `file`, `url`, `addonPath` is rejected. -/
theorem parseConfiguration_rejects_invalid_witness :
    (∃ msg, parseConfiguration
      { request := .launch, url := some "http://localhost".toList,
        profile := some "dev".toList, profileDir := some "/tmp/p".toList }
      ⟨fun _ => Except.ok "/usr/bin/firefox".toList, fun p => Except.ok p,
        "/tmp/fresh".toList, fun _ => true⟩
      (fun r => Except.ok r) = Except.error msg)
    ∧ (∃ msg, parseConfiguration
      { request := .launch }
      ⟨fun _ => Except.ok "/usr/bin/firefox".toList, fun p => Except.ok p,
        "/tmp/fresh".toList, fun _ => true⟩
      (fun r => Except.ok r) = Except.error msg) :=
  ⟨parseConfiguration_rejects_invalid _ _ _ rfl (Or.inl ⟨by decide, by decide⟩),
   parseConfiguration_rejects_invalid _ _ _ rfl
     (Or.inr (Or.inr ⟨by decide, by decide, by decide⟩))⟩

/-! ## Run characterizations -/

/-- The breakpoints to add, with their actual positions resolved by the
modern-protocol addition callbacks (source.ts lines 147-171). -/
def resolvedToAdd (findPos : FindPosition) (oracle : RemoteOracle)
    (current : List BreakpointAdapter) (D : List BreakpointInfo) : List BreakpointInfo :=
  (toAddOf current D).map (resolveNew findPos oracle.breakpointPositions)

/-- The legacy-protocol addition results paired with their breakpoints
(source.ts lines 192-215). -/
def oldResultsOf (oracle : RemoteOracle) (current : List BreakpointAdapter)
    (D : List BreakpointInfo) : List (OldSetBreakpointResult × BreakpointInfo) :=
  (toAddOf current D).map (fun d => ((oracle.setBreakpointOld d).getD ⟨none⟩, d))

/-- The events strictly between `runStart` and `runEnd` of a successful
modern-protocol run. -/
def newRunBody (findPos : FindPosition) (oracle : RemoteOracle)
    (current : List BreakpointAdapter) (D : List BreakpointInfo) : List Ev :=
  (toDeleteOf current D).map (fun c => Ev.issueDelete c.breakpointInfo)
    ++ (toDeleteOf current D).map (fun c => Ev.completeDelete c.breakpointInfo)
    ++ [Ev.getPositions]
    ++ (resolvedToAdd findPos oracle current D).map Ev.issueAdd
    ++ (resolvedToAdd findPos oracle current D).map Ev.completeAdd
    ++ (resolvedToAdd findPos oracle current D).map
        (fun d => Ev.verify d d.actualLine d.actualColumn)

/-- The trace of a successful modern-protocol run. -/
def newRunTrace (findPos : FindPosition) (oracle : RemoteOracle)
    (current : List BreakpointAdapter) (D : List BreakpointInfo) : List Ev :=
  Ev.runStart D :: newRunBody findPos oracle current D ++ [Ev.runEnd]

/-- The installed set after a successful modern-protocol run: the kept
breakpoints followed by the newly added ones (source.ts line 219). -/
def newRunCurrent (findPos : FindPosition) (oracle : RemoteOracle)
    (current : List BreakpointAdapter) (D : List BreakpointInfo) :
    List BreakpointAdapter :=
  keepOf current D
    ++ (resolvedToAdd findPos oracle current D).map (fun d => BreakpointAdapter.mk d .newProtocol)

/-- The events strictly between `runStart` and `runEnd` of a successful
legacy-protocol run. -/
def oldRunBody (oracle : RemoteOracle) (current : List BreakpointAdapter)
    (D : List BreakpointInfo) : List Ev :=
  (toDeleteOf current D).map (fun c => Ev.issueDelete c.breakpointInfo)
    ++ (toDeleteOf current D).map (fun c => Ev.completeDelete c.breakpointInfo)
    ++ (toAddOf current D).map Ev.issueAdd
    ++ (toAddOf current D).map Ev.completeAdd
    ++ (oldResultsOf oracle current D).map (fun rd =>
        Ev.verify rd.2 (some (oldActualLine rd.1 rd.2)) (oldActualColumn rd.1 rd.2))

/-- The trace of a successful legacy-protocol run. -/
def oldRunTrace (oracle : RemoteOracle) (current : List BreakpointAdapter)
    (D : List BreakpointInfo) : List Ev :=
  Ev.runStart D :: oldRunBody oracle current D ++ [Ev.runEnd]

/-- The installed set after a successful legacy-protocol run. -/
def oldRunCurrent (oracle : RemoteOracle) (current : List BreakpointAdapter)
    (D : List BreakpointInfo) : List BreakpointAdapter :=
  keepOf current D
    ++ (oldResultsOf oracle current D).map (fun rd =>
        OldProtocolBreakpointAdapter.make rd.2 rd.1)

/-! Per-segment step lemmas: each spells out one synchronous segment of
`syncBreakpoints` on a general machine state. -/

lemma doStart_some (current : List BreakpointAdapter) (D : List BreakpointInfo)
    (sync : Bool) (ph : Phase) (t : List Ev) :
    doStart
      { currentBreakpoints := current, desiredBreakpoints := some D,
        isSyncingBreakpoints := sync, phase := ph, trace := t } =
    { currentBreakpoints := current, desiredBreakpoints := none,
      isSyncingBreakpoints := true,
      phase := .atDeletions (some D) (keepOf current D) (toDeleteOf current D),
      trace := t ++ Ev.runStart D ::
        (toDeleteOf current D).map (fun c => Ev.issueDelete c.breakpointInfo) } := rfl

lemma resumeStep_atDeletions_ok_new (findPos : FindPosition) (oracle : RemoteOracle)
    (current : List BreakpointAdapter) (dsr : Option (List BreakpointInfo)) (sync : Bool)
    (D : List BreakpointInfo) (keep toDelete : List BreakpointAdapter) (t : List Ev)
    (hall : toDelete.all (fun c => oracle.deleteOk c.breakpointInfo) = true) :
    resumeStep true findPos oracle
      { currentBreakpoints := current, desiredBreakpoints := dsr,
        isSyncingBreakpoints := sync, phase := .atDeletions (some D) keep toDelete,
        trace := t } =
    { currentBreakpoints := current, desiredBreakpoints := dsr,
      isSyncingBreakpoints := sync, phase := .atPositions keep (toAddOf current D),
      trace := t ++ toDelete.map (settleDelete oracle) ++ [Ev.getPositions] } := by
  simp only [resumeStep]
  rw [if_pos hall]
  simp

lemma resumeStep_atDeletions_ok_old (findPos : FindPosition) (oracle : RemoteOracle)
    (current : List BreakpointAdapter) (dsr : Option (List BreakpointInfo)) (sync : Bool)
    (D : List BreakpointInfo) (keep toDelete : List BreakpointAdapter) (t : List Ev)
    (hall : toDelete.all (fun c => oracle.deleteOk c.breakpointInfo) = true) :
    resumeStep false findPos oracle
      { currentBreakpoints := current, desiredBreakpoints := dsr,
        isSyncingBreakpoints := sync, phase := .atDeletions (some D) keep toDelete,
        trace := t } =
    { currentBreakpoints := current, desiredBreakpoints := dsr,
      isSyncingBreakpoints := sync, phase := .atAdditionsOld keep (toAddOf current D),
      trace := t ++ toDelete.map (settleDelete oracle)
        ++ (toAddOf current D).map Ev.issueAdd } := by
  simp only [resumeStep]
  rw [if_pos hall]
  simp

lemma resumeStep_atDeletions_fail (p : Bool) (findPos : FindPosition) (oracle : RemoteOracle)
    (current : List BreakpointAdapter) (dsr : Option (List BreakpointInfo)) (sync : Bool)
    (D : List BreakpointInfo) (keep toDelete : List BreakpointAdapter) (t : List Ev)
    (hfail : toDelete.all (fun c => oracle.deleteOk c.breakpointInfo) = false) :
    resumeStep p findPos oracle
      { currentBreakpoints := current, desiredBreakpoints := dsr,
        isSyncingBreakpoints := sync, phase := .atDeletions (some D) keep toDelete,
        trace := t } =
    { currentBreakpoints := current, desiredBreakpoints := dsr,
      isSyncingBreakpoints := sync, phase := .faulted .promiseRejection,
      trace := t ++ toDelete.map (settleDelete oracle) } := by
  simp only [resumeStep]
  rw [if_neg (by simp [hfail])]

lemma resumeStep_atPositions (findPos : FindPosition) (oracle : RemoteOracle)
    (current : List BreakpointAdapter) (dsr : Option (List BreakpointInfo)) (sync : Bool)
    (keep : List BreakpointAdapter) (toAdd : List BreakpointInfo) (t : List Ev) :
    resumeStep true findPos oracle
      { currentBreakpoints := current, desiredBreakpoints := dsr,
        isSyncingBreakpoints := sync, phase := .atPositions keep toAdd, trace := t } =
    { currentBreakpoints := current, desiredBreakpoints := dsr,
      isSyncingBreakpoints := sync,
      phase := .atAdditionsNew keep (toAdd.map (resolveNew findPos oracle.breakpointPositions)),
      trace := t ++ (toAdd.map (resolveNew findPos oracle.breakpointPositions)).map
        Ev.issueAdd } := rfl

lemma resumeStep_atAdditionsNew_ok (findPos : FindPosition) (oracle : RemoteOracle)
    (current : List BreakpointAdapter) (dsr : Option (List BreakpointInfo)) (sync : Bool)
    (keep : List BreakpointAdapter) (resolved : List BreakpointInfo) (t : List Ev)
    (hall : resolved.all oracle.setBreakpointOk = true) :
    resumeStep true findPos oracle
      { currentBreakpoints := current, desiredBreakpoints := dsr,
        isSyncingBreakpoints := sync, phase := .atAdditionsNew keep resolved, trace := t } =
    checkAndSyncNew
      { currentBreakpoints := keep ++ resolved.map (fun d => BreakpointAdapter.mk d .newProtocol),
        desiredBreakpoints := dsr, isSyncingBreakpoints := false, phase := .idle,
        trace := t ++ resolved.map (settleAddNew oracle)
          ++ resolved.map (fun d => Ev.verify d d.actualLine d.actualColumn)
          ++ [Ev.runEnd] } := by
  simp only [resumeStep]
  rw [if_pos hall]

lemma resumeStep_atAdditionsNew_fail (findPos : FindPosition) (oracle : RemoteOracle)
    (current : List BreakpointAdapter) (dsr : Option (List BreakpointInfo)) (sync : Bool)
    (keep : List BreakpointAdapter) (resolved : List BreakpointInfo) (t : List Ev)
    (hfail : resolved.all oracle.setBreakpointOk = false) :
    resumeStep true findPos oracle
      { currentBreakpoints := current, desiredBreakpoints := dsr,
        isSyncingBreakpoints := sync, phase := .atAdditionsNew keep resolved, trace := t } =
    { currentBreakpoints := current, desiredBreakpoints := dsr,
      isSyncingBreakpoints := sync, phase := .faulted .promiseRejection,
      trace := t ++ resolved.map (settleAddNew oracle) } := by
  simp only [resumeStep]
  rw [if_neg (by simp [hfail])]

lemma resumeStep_atAdditionsOld_ok (findPos : FindPosition) (oracle : RemoteOracle)
    (current : List BreakpointAdapter) (dsr : Option (List BreakpointInfo)) (sync : Bool)
    (keep : List BreakpointAdapter) (toAdd : List BreakpointInfo) (t : List Ev)
    (hall : toAdd.all (fun d => (oracle.setBreakpointOld d).isSome) = true) :
    resumeStep false findPos oracle
      { currentBreakpoints := current, desiredBreakpoints := dsr,
        isSyncingBreakpoints := sync, phase := .atAdditionsOld keep toAdd, trace := t } =
    { currentBreakpoints := keep
        ++ (toAdd.map (fun d => ((oracle.setBreakpointOld d).getD ⟨none⟩, d))).map
          (fun rd => OldProtocolBreakpointAdapter.make rd.2 rd.1),
      desiredBreakpoints := dsr, isSyncingBreakpoints := false, phase := .idle,
      trace := t ++ toAdd.map (settleAddOld oracle)
        ++ (toAdd.map (fun d => ((oracle.setBreakpointOld d).getD ⟨none⟩, d))).map
          (fun rd => Ev.verify rd.2 (some (oldActualLine rd.1 rd.2)) (oldActualColumn rd.1 rd.2))
        ++ [Ev.runEnd] } := by
  simp only [resumeStep]
  rw [if_pos hall]

lemma resumeStep_atAdditionsOld_fail (findPos : FindPosition) (oracle : RemoteOracle)
    (current : List BreakpointAdapter) (dsr : Option (List BreakpointInfo)) (sync : Bool)
    (keep : List BreakpointAdapter) (toAdd : List BreakpointInfo) (t : List Ev)
    (hfail : toAdd.all (fun d => (oracle.setBreakpointOld d).isSome) = false) :
    resumeStep false findPos oracle
      { currentBreakpoints := current, desiredBreakpoints := dsr,
        isSyncingBreakpoints := sync, phase := .atAdditionsOld keep toAdd, trace := t } =
    { currentBreakpoints := current, desiredBreakpoints := dsr,
      isSyncingBreakpoints := sync, phase := .faulted .promiseRejection,
      trace := t ++ toAdd.map (settleAddOld oracle) } := by
  simp only [resumeStep]
  rw [if_neg (by simp [hfail])]

lemma resumeStep_idle (p : Bool) (findPos : FindPosition) (oracle : RemoteOracle)
    (current : List BreakpointAdapter) (dsr : Option (List BreakpointInfo)) (sync : Bool)
    (t : List Ev) :
    resumeStep p findPos oracle
      { currentBreakpoints := current, desiredBreakpoints := dsr,
        isSyncingBreakpoints := sync, phase := .idle, trace := t } =
    { currentBreakpoints := current, desiredBreakpoints := dsr,
      isSyncingBreakpoints := sync, phase := .idle, trace := t } := rfl

lemma resumeStep_faulted (p : Bool) (findPos : FindPosition) (oracle : RemoteOracle)
    (current : List BreakpointAdapter) (dsr : Option (List BreakpointInfo)) (sync : Bool)
    (e : JsError) (t : List Ev) :
    resumeStep p findPos oracle
      { currentBreakpoints := current, desiredBreakpoints := dsr,
        isSyncingBreakpoints := sync, phase := .faulted e, trace := t } =
    { currentBreakpoints := current, desiredBreakpoints := dsr,
      isSyncingBreakpoints := sync, phase := .faulted e, trace := t } := rfl

lemma checkAndSyncNew_none (st : MState) (h : st.desiredBreakpoints = none) :
    checkAndSyncNew st = st := by
  simp [checkAndSyncNew, h]

lemma checkAndSyncNew_pending (st : MState) (S : List BreakpointInfo)
    (h : st.desiredBreakpoints = some S) (h2 : st.isSyncingBreakpoints = false) :
    checkAndSyncNew st = doStart st := by
  simp [checkAndSyncNew, h, h2]

/-! Whole-run characterizations, assembled from the step lemmas. -/

lemma runSync_new_success (findPos : FindPosition) (oracle : RemoteOracle)
    (current : List BreakpointAdapter) (D : List BreakpointInfo)
    (hdel : ∀ c ∈ toDeleteOf current D, oracle.deleteOk c.breakpointInfo = true)
    (hadd : ∀ d ∈ (toAddOf current D).map (resolveNew findPos oracle.breakpointPositions),
      oracle.setBreakpointOk d = true) :
    runSync true findPos oracle current (some D) =
      { currentBreakpoints := newRunCurrent findPos oracle current D,
        desiredBreakpoints := none, isSyncingBreakpoints := false, phase := .idle,
        trace := newRunTrace findPos oracle current D } := by
  have hallDel : (toDeleteOf current D).all (fun c => oracle.deleteOk c.breakpointInfo) = true :=
    List.all_eq_true.mpr hdel
  have hallAdd : ((toAddOf current D).map (resolveNew findPos oracle.breakpointPositions)).all
      oracle.setBreakpointOk = true :=
    List.all_eq_true.mpr hadd
  have hmapDel : (toDeleteOf current D).map (settleDelete oracle)
      = (toDeleteOf current D).map (fun c => Ev.completeDelete c.breakpointInfo) :=
    List.map_congr_left (fun c hc => by simp [settleDelete, hdel c hc])
  have hmapAdd : ((toAddOf current D).map (resolveNew findPos oracle.breakpointPositions)).map
        (settleAddNew oracle)
      = ((toAddOf current D).map (resolveNew findPos oracle.breakpointPositions)).map
        Ev.completeAdd :=
    List.map_congr_left (fun d hd => by simp [settleAddNew, hadd d hd])
  simp only [runSync]
  rw [doStart_some, resumeStep_atDeletions_ok_new _ _ _ _ _ _ _ _ _ hallDel,
    resumeStep_atPositions, resumeStep_atAdditionsNew_ok _ _ _ _ _ _ _ _ hallAdd,
    checkAndSyncNew_none _ rfl]
  simp only [newRunTrace, newRunBody, newRunCurrent, resolvedToAdd, MState.mk.injEq,
    List.nil_append, List.cons_append, List.append_assoc, hmapDel, hmapAdd]

lemma runSync_old_success (findPos : FindPosition) (oracle : RemoteOracle)
    (current : List BreakpointAdapter) (D : List BreakpointInfo)
    (hdel : ∀ c ∈ toDeleteOf current D, oracle.deleteOk c.breakpointInfo = true)
    (hadd : ∀ d ∈ toAddOf current D, (oracle.setBreakpointOld d).isSome = true) :
    runSync false findPos oracle current (some D) =
      { currentBreakpoints := oldRunCurrent oracle current D,
        desiredBreakpoints := none, isSyncingBreakpoints := false, phase := .idle,
        trace := oldRunTrace oracle current D } := by
  have hallDel : (toDeleteOf current D).all (fun c => oracle.deleteOk c.breakpointInfo) = true :=
    List.all_eq_true.mpr hdel
  have hallAdd : (toAddOf current D).all (fun d => (oracle.setBreakpointOld d).isSome) = true :=
    List.all_eq_true.mpr hadd
  have hmapDel : (toDeleteOf current D).map (settleDelete oracle)
      = (toDeleteOf current D).map (fun c => Ev.completeDelete c.breakpointInfo) :=
    List.map_congr_left (fun c hc => by simp [settleDelete, hdel c hc])
  have hmapAdd : (toAddOf current D).map (settleAddOld oracle)
      = (toAddOf current D).map Ev.completeAdd :=
    List.map_congr_left (fun d hd => by simp [settleAddOld, hadd d hd])
  simp only [runSync]
  rw [doStart_some, resumeStep_atDeletions_ok_old _ _ _ _ _ _ _ _ _ hallDel,
    resumeStep_atAdditionsOld_ok _ _ _ _ _ _ _ _ hallAdd, resumeStep_idle]
  simp only [oldRunTrace, oldRunBody, oldRunCurrent, oldResultsOf, MState.mk.injEq,
    List.nil_append, List.cons_append, List.append_assoc, hmapDel, hmapAdd]

lemma runSync_delFail (p : Bool) (findPos : FindPosition) (oracle : RemoteOracle)
    (current : List BreakpointAdapter) (D : List BreakpointInfo)
    (hfail : (toDeleteOf current D).all (fun c => oracle.deleteOk c.breakpointInfo) = false) :
    runSync p findPos oracle current (some D) =
      { currentBreakpoints := current, desiredBreakpoints := none,
        isSyncingBreakpoints := true, phase := .faulted .promiseRejection,
        trace := Ev.runStart D ::
          (toDeleteOf current D).map (fun c => Ev.issueDelete c.breakpointInfo)
          ++ (toDeleteOf current D).map (settleDelete oracle) } := by
  simp only [runSync]
  rw [doStart_some, resumeStep_atDeletions_fail _ _ _ _ _ _ _ _ _ _ hfail,
    resumeStep_faulted, resumeStep_faulted]
  simp only [MState.mk.injEq, List.nil_append, List.cons_append, List.append_assoc]

lemma runSync_new_addFail (findPos : FindPosition) (oracle : RemoteOracle)
    (current : List BreakpointAdapter) (D : List BreakpointInfo)
    (hdel : ∀ c ∈ toDeleteOf current D, oracle.deleteOk c.breakpointInfo = true)
    (hfail : ((toAddOf current D).map (resolveNew findPos oracle.breakpointPositions)).all
      oracle.setBreakpointOk = false) :
    runSync true findPos oracle current (some D) =
      { currentBreakpoints := current, desiredBreakpoints := none,
        isSyncingBreakpoints := true, phase := .faulted .promiseRejection,
        trace := Ev.runStart D ::
          (toDeleteOf current D).map (fun c => Ev.issueDelete c.breakpointInfo)
          ++ (toDeleteOf current D).map (settleDelete oracle)
          ++ [Ev.getPositions]
          ++ ((toAddOf current D).map (resolveNew findPos oracle.breakpointPositions)).map
            Ev.issueAdd
          ++ ((toAddOf current D).map (resolveNew findPos oracle.breakpointPositions)).map
            (settleAddNew oracle) } := by
  have hallDel : (toDeleteOf current D).all (fun c => oracle.deleteOk c.breakpointInfo) = true :=
    List.all_eq_true.mpr hdel
  simp only [runSync]
  rw [doStart_some, resumeStep_atDeletions_ok_new _ _ _ _ _ _ _ _ _ hallDel,
    resumeStep_atPositions, resumeStep_atAdditionsNew_fail _ _ _ _ _ _ _ _ hfail]
  simp only [MState.mk.injEq, List.nil_append, List.cons_append, List.append_assoc]

lemma runSync_old_addFail (findPos : FindPosition) (oracle : RemoteOracle)
    (current : List BreakpointAdapter) (D : List BreakpointInfo)
    (hdel : ∀ c ∈ toDeleteOf current D, oracle.deleteOk c.breakpointInfo = true)
    (hfail : (toAddOf current D).all (fun d => (oracle.setBreakpointOld d).isSome) = false) :
    runSync false findPos oracle current (some D) =
      { currentBreakpoints := current, desiredBreakpoints := none,
        isSyncingBreakpoints := true, phase := .faulted .promiseRejection,
        trace := Ev.runStart D ::
          (toDeleteOf current D).map (fun c => Ev.issueDelete c.breakpointInfo)
          ++ (toDeleteOf current D).map (settleDelete oracle)
          ++ (toAddOf current D).map Ev.issueAdd
          ++ (toAddOf current D).map (settleAddOld oracle) } := by
  have hallDel : (toDeleteOf current D).all (fun c => oracle.deleteOk c.breakpointInfo) = true :=
    List.all_eq_true.mpr hdel
  simp only [runSync]
  rw [doStart_some, resumeStep_atDeletions_ok_old _ _ _ _ _ _ _ _ _ hallDel,
    resumeStep_atAdditionsOld_fail _ _ _ _ _ _ _ _ hfail, resumeStep_faulted]
  simp only [MState.mk.injEq, List.nil_append, List.cons_append, List.append_assoc]

/-! ## Concrete fixtures for counterexamples and witnesses -/

/-- A position resolver that returns the requested position unchanged. -/
def fpId : FindPosition := fun l c _ => ⟨l, c⟩

/-- An oracle under which every remote operation succeeds (the legacy
`setBreakpoint` reports no actual location). -/
def oracleOk : RemoteOracle :=
  { deleteOk := fun _ => true, breakpointPositions := [],
    setBreakpointOk := fun _ => true, setBreakpointOld := fun _ => some ⟨none⟩ }

/-- An oracle under which every `breakpointAdapter.delete()` rejects. -/
def oracleDelFail : RemoteOracle :=
  { deleteOk := fun _ => false, breakpointPositions := [],
    setBreakpointOk := fun _ => true, setBreakpointOld := fun _ => some ⟨none⟩ }

/-- A breakpoint requested at line 10, column 0. -/
def bpLine10 : BreakpointInfo := { requestedBreakpoint := ⟨10, some 0, none, none⟩ }

/-- A breakpoint requested at line 20, column 0. -/
def bpLine20 : BreakpointInfo := { requestedBreakpoint := ⟨20, some 0, none, none⟩ }

/-- `bpLine10` as the modern-protocol run resolves it (with `fpId`, the actual
position equals the requested position). -/
def bpLine10R : BreakpointInfo :=
  { requestedBreakpoint := ⟨10, some 0, none, none⟩,
    actualLine := some 10, actualColumn := some 0 }

/-! ## Claim C6: syncBreakpoints on an `undefined` desired set -/

lemma doStart_none (current : List BreakpointAdapter) (sync : Bool) (ph : Phase)
    (t : List Ev) :
    doStart
      { currentBreakpoints := current, desiredBreakpoints := none,
        isSyncingBreakpoints := sync, phase := ph, trace := t } =
    if current.isEmpty then
      { currentBreakpoints := current, desiredBreakpoints := none,
        isSyncingBreakpoints := true, phase := .atDeletions none [] [], trace := t }
    else
      { currentBreakpoints := current, desiredBreakpoints := none,
        isSyncingBreakpoints := true, phase := .faulted .typeError, trace := t } := rfl

lemma resumeStep_atDeletions_none (p : Bool) (findPos : FindPosition)
    (oracle : RemoteOracle) (current : List BreakpointAdapter)
    (dsr : Option (List BreakpointInfo)) (sync : Bool)
    (keep toDelete : List BreakpointAdapter) (t : List Ev) :
    resumeStep p findPos oracle
      { currentBreakpoints := current, desiredBreakpoints := dsr,
        isSyncingBreakpoints := sync, phase := .atDeletions none keep toDelete,
        trace := t } =
    { currentBreakpoints := current, desiredBreakpoints := dsr,
      isSyncingBreakpoints := sync, phase := .faulted .typeError, trace := t } := rfl

/-- C6. `syncBreakpoints` invoked while `desiredBreakpoints` is `undefined` is
not a safe no-op: for every state and protocol variant the run faults with a
`TypeError` (the captured `this.desiredBreakpoints!` is `undefined`, and the
partition loop's `.some` call — or, when the installed set is empty, the
`.filter` call after the first await — is a method call on `undefined`), and
the in-flight flag is left set forever. The spec instead requires "if none is
pending, do nothing". -/
theorem syncBreakpoints_undefined_desired_faults (p : Bool) (findPos : FindPosition)
    (oracle : RemoteOracle) (current : List BreakpointAdapter) :
    (runSync p findPos oracle current none).phase = .faulted .typeError
    ∧ (runSync p findPos oracle current none).isSyncingBreakpoints = true := by
  simp only [runSync]
  rw [doStart_none]
  by_cases h : current.isEmpty
  · rw [if_pos h, resumeStep_atDeletions_none, resumeStep_faulted, resumeStep_faulted]
    exact ⟨rfl, rfl⟩
  · rw [if_neg h, resumeStep_faulted, resumeStep_faulted, resumeStep_faulted]
    exact ⟨rfl, rfl⟩

/-! ## Claim C3: deletions complete before additions begin -/

/-- Whether an event is the issuing of an addition. -/
def isIssueAdd : Ev → Bool
  | .issueAdd _ => true
  | _ => false

/-- Whether an event is the issuing of a deletion. -/
def isIssueDelete : Ev → Bool
  | .issueDelete _ => true
  | _ => false

/-- Whether an event is the successful completion of a deletion. -/
def isCompleteDelete : Ev → Bool
  | .completeDelete _ => true
  | _ => false

/-- The ordering property of a trace: once an addition has been issued, no
deletion completes afterwards — i.e. every deletion that completes does so
before any addition begins. -/
def noDeleteAfterAdd : List Ev → Bool
  | [] => true
  | e :: rest =>
    ((!isIssueAdd e) || rest.all (fun x => !isCompleteDelete x)) && noDeleteAfterAdd rest

lemma noDeleteAfterAdd_append_no_add (l1 l2 : List Ev)
    (h : ∀ e ∈ l1, isIssueAdd e = false) :
    noDeleteAfterAdd (l1 ++ l2) = noDeleteAfterAdd l2 := by
  induction l1 with
  | nil => rfl
  | cons e l1 ih =>
    have he : isIssueAdd e = false := h e (List.mem_cons_self e l1)
    have ht : ∀ x ∈ l1, isIssueAdd x = false := fun x hx => h x (List.mem_cons_of_mem e hx)
    simp [noDeleteAfterAdd, he, ih ht]

lemma noDeleteAfterAdd_of_no_completeDelete (l : List Ev)
    (h : ∀ e ∈ l, isCompleteDelete e = false) :
    noDeleteAfterAdd l = true := by
  induction l with
  | nil => rfl
  | cons e l ih =>
    have ht : ∀ x ∈ l, isCompleteDelete x = false := fun x hx => h x (List.mem_cons_of_mem e hx)
    have hall : l.all (fun x => !isCompleteDelete x) = true :=
      List.all_eq_true.mpr (fun x hx => by rw [ht x hx]; rfl)
    simp [noDeleteAfterAdd, hall, ih ht]

lemma noDeleteAfterAdd_of_no_add (l : List Ev)
    (h : ∀ e ∈ l, isIssueAdd e = false) :
    noDeleteAfterAdd l = true := by
  have := noDeleteAfterAdd_append_no_add l [] h
  rw [List.append_nil] at this
  rw [this]
  rfl

lemma isIssueAdd_settleDelete (oracle : RemoteOracle) (c : BreakpointAdapter) :
    isIssueAdd (settleDelete oracle c) = false := by
  by_cases h : oracle.deleteOk c.breakpointInfo = true <;> simp [settleDelete, h, isIssueAdd]

lemma isCompleteDelete_settleAddNew (oracle : RemoteOracle) (d : BreakpointInfo) :
    isCompleteDelete (settleAddNew oracle d) = false := by
  by_cases h : oracle.setBreakpointOk d = true <;> simp [settleAddNew, h, isCompleteDelete]

lemma isCompleteDelete_settleAddOld (oracle : RemoteOracle) (d : BreakpointInfo) :
    isCompleteDelete (settleAddOld oracle d) = false := by
  by_cases h : (oracle.setBreakpointOld d).isSome = true <;>
    simp [settleAddOld, h, isCompleteDelete]

lemma forall_mem_map_eq_false {α : Type} (f : α → Ev) (P : Ev → Bool) (l : List α)
    (h : ∀ x, P (f x) = false) : ∀ e ∈ l.map f, P e = false := by
  intro e he
  obtain ⟨x, _, rfl⟩ := List.mem_map.mp he
  exact h x

lemma forall_mem_append_eq_false (P : Ev → Bool) (l1 l2 : List Ev)
    (h1 : ∀ e ∈ l1, P e = false) (h2 : ∀ e ∈ l2, P e = false) :
    ∀ e ∈ l1 ++ l2, P e = false := by
  intro e he
  rcases List.mem_append.mp he with h | h
  · exact h1 e h
  · exact h2 e h

/-- C3. Delete-before-add ordering: in every `syncBreakpoints` run — either
protocol variant, any remote outcomes, any desired set — once an addition has
been issued, no deletion completes afterwards; equivalently, every deletion
that completes does so before any addition operation begins (additions are only
issued after `await Promise.all(deletionPromises)` has resolved, which requires
every deletion to have completed). -/
theorem deletions_complete_before_additions (p : Bool) (findPos : FindPosition)
    (oracle : RemoteOracle) (current : List BreakpointAdapter)
    (desired : Option (List BreakpointInfo)) :
    noDeleteAfterAdd (runSync p findPos oracle current desired).trace = true := by
  cases desired with
  | none =>
    simp only [runSync]
    rw [doStart_none]
    by_cases h : current.isEmpty
    · rw [if_pos h, resumeStep_atDeletions_none, resumeStep_faulted, resumeStep_faulted]
      rfl
    · rw [if_neg h, resumeStep_faulted, resumeStep_faulted, resumeStep_faulted]
      rfl
  | some D =>
    have hIssueDel : ∀ e ∈ (toDeleteOf current D).map
        (fun c => Ev.issueDelete c.breakpointInfo), isIssueAdd e = false :=
      forall_mem_map_eq_false _ _ _ (fun c => rfl)
    have hSettleDel : ∀ e ∈ (toDeleteOf current D).map (settleDelete oracle),
        isIssueAdd e = false :=
      forall_mem_map_eq_false _ _ _ (isIssueAdd_settleDelete oracle)
    have hCompDel : ∀ e ∈ (toDeleteOf current D).map
        (fun c => Ev.completeDelete c.breakpointInfo), isIssueAdd e = false :=
      forall_mem_map_eq_false _ _ _ (fun c => rfl)
    have hGp : ∀ e ∈ [Ev.getPositions], isIssueAdd e = false := by
      intro e he
      rw [List.mem_singleton.mp he]
      rfl
    cases hall : (toDeleteOf current D).all (fun c => oracle.deleteOk c.breakpointInfo) with
    | false =>
      rw [runSync_delFail p findPos oracle current D hall]
      apply noDeleteAfterAdd_of_no_add
      intro e he
      simp only [List.cons_append, List.append_assoc] at he
      rcases List.mem_cons.mp he with rfl | he2
      · rfl
      exact forall_mem_append_eq_false _ _ _ hIssueDel hSettleDel e he2
    | true =>
      have hdel := List.all_eq_true.mp hall
      cases p with
      | true =>
        set M := (toAddOf current D).map (resolveNew findPos oracle.breakpointPositions) with hM
        have hAddI : ∀ e ∈ M.map Ev.issueAdd, isCompleteDelete e = false :=
          forall_mem_map_eq_false _ _ _ (fun d => rfl)
        have hAddS : ∀ e ∈ M.map (settleAddNew oracle), isCompleteDelete e = false :=
          forall_mem_map_eq_false _ _ _ (isCompleteDelete_settleAddNew oracle)
        have hAddC : ∀ e ∈ M.map Ev.completeAdd, isCompleteDelete e = false :=
          forall_mem_map_eq_false _ _ _ (fun d => rfl)
        have hVer : ∀ e ∈ M.map (fun d => Ev.verify d d.actualLine d.actualColumn),
            isCompleteDelete e = false :=
          forall_mem_map_eq_false _ _ _ (fun d => rfl)
        have hEnd : ∀ e ∈ [Ev.runEnd], isCompleteDelete e = false := by
          intro e he
          rw [List.mem_singleton.mp he]
          rfl
        cases haddall : M.all oracle.setBreakpointOk with
        | false =>
          rw [runSync_new_addFail findPos oracle current D hdel haddall]
          simp only [noDeleteAfterAdd, isIssueAdd, List.append_eq, List.cons_append,
            List.append_assoc, Bool.not_false, Bool.true_or, Bool.true_and]
          rw [noDeleteAfterAdd_append_no_add _ _ hIssueDel,
            noDeleteAfterAdd_append_no_add _ _ hSettleDel]
          simp only [noDeleteAfterAdd, isIssueAdd, List.nil_append, Bool.not_false,
            Bool.true_or, Bool.true_and]
          exact noDeleteAfterAdd_of_no_completeDelete _
            (forall_mem_append_eq_false _ _ _ hAddI hAddS)
        | true =>
          rw [runSync_new_success findPos oracle current D hdel (List.all_eq_true.mp haddall)]
          simp only [newRunTrace, newRunBody, resolvedToAdd, ← hM, noDeleteAfterAdd,
            isIssueAdd, List.append_eq, List.cons_append, List.append_assoc,
            Bool.not_false, Bool.true_or, Bool.true_and]
          rw [noDeleteAfterAdd_append_no_add _ _ hIssueDel,
            noDeleteAfterAdd_append_no_add _ _ hCompDel]
          simp only [noDeleteAfterAdd, isIssueAdd, List.nil_append, Bool.not_false,
            Bool.true_or, Bool.true_and]
          exact noDeleteAfterAdd_of_no_completeDelete _
            (forall_mem_append_eq_false _ _ _ hAddI
              (forall_mem_append_eq_false _ _ _ hAddC
                (forall_mem_append_eq_false _ _ _ hVer hEnd)))
      | false =>
        set N := toAddOf current D with hN
        have hAddI : ∀ e ∈ N.map Ev.issueAdd, isCompleteDelete e = false :=
          forall_mem_map_eq_false _ _ _ (fun d => rfl)
        have hAddS : ∀ e ∈ N.map (settleAddOld oracle), isCompleteDelete e = false :=
          forall_mem_map_eq_false _ _ _ (isCompleteDelete_settleAddOld oracle)
        have hAddC : ∀ e ∈ N.map Ev.completeAdd, isCompleteDelete e = false :=
          forall_mem_map_eq_false _ _ _ (fun d => rfl)
        have hVerO : ∀ e ∈ (oldResultsOf oracle current D).map (fun rd =>
            Ev.verify rd.2 (some (oldActualLine rd.1 rd.2)) (oldActualColumn rd.1 rd.2)),
            isCompleteDelete e = false :=
          forall_mem_map_eq_false _ _ _ (fun rd => rfl)
        have hEnd : ∀ e ∈ [Ev.runEnd], isCompleteDelete e = false := by
          intro e he
          rw [List.mem_singleton.mp he]
          rfl
        cases haddall : N.all (fun d => (oracle.setBreakpointOld d).isSome) with
        | false =>
          rw [runSync_old_addFail findPos oracle current D hdel haddall]
          simp only [noDeleteAfterAdd, isIssueAdd, List.append_eq, List.cons_append,
            List.append_assoc, Bool.not_false, Bool.true_or, Bool.true_and, ← hN]
          rw [noDeleteAfterAdd_append_no_add _ _ hIssueDel,
            noDeleteAfterAdd_append_no_add _ _ hSettleDel]
          exact noDeleteAfterAdd_of_no_completeDelete _
            (forall_mem_append_eq_false _ _ _ hAddI hAddS)
        | true =>
          rw [runSync_old_success findPos oracle current D hdel (List.all_eq_true.mp haddall)]
          simp only [oldRunTrace, oldRunBody, noDeleteAfterAdd, isIssueAdd,
            List.append_eq, List.cons_append, List.append_assoc,
            Bool.not_false, Bool.true_or, Bool.true_and, ← hN]
          rw [noDeleteAfterAdd_append_no_add _ _ hIssueDel,
            noDeleteAfterAdd_append_no_add _ _ hCompDel]
          exact noDeleteAfterAdd_of_no_completeDelete _
            (forall_mem_append_eq_false _ _ _ hAddI
              (forall_mem_append_eq_false _ _ _ hAddC
                (forall_mem_append_eq_false _ _ _ hVerO hEnd)))

/-! ## Claim C2: batch behavior under individual failures -/

lemma settleDelete_ne_runEnd (oracle : RemoteOracle) (c : BreakpointAdapter) :
    settleDelete oracle c ≠ Ev.runEnd := by
  by_cases h : oracle.deleteOk c.breakpointInfo = true <;> simp [settleDelete, h]

lemma settleAddNew_ne_runEnd (oracle : RemoteOracle) (d : BreakpointInfo) :
    settleAddNew oracle d ≠ Ev.runEnd := by
  by_cases h : oracle.setBreakpointOk d = true <;> simp [settleAddNew, h]

lemma settleAddOld_ne_runEnd (oracle : RemoteOracle) (d : BreakpointInfo) :
    settleAddOld oracle d ≠ Ev.runEnd := by
  by_cases h : (oracle.setBreakpointOld d).isSome = true <;> simp [settleAddOld, h]

lemma notin_of_forall_ne (x : Ev) (l : List Ev) (h : ∀ e ∈ l, e ≠ x) : x ∉ l :=
  fun hm => h x hm rfl

/-- Whatever the oracle decides, every run on a pending desired set first emits
`runStart`, then issues every deletion of the partition, then lets every issued
deletion settle — the whole deletion batch is issued and settles regardless of
individual failures. -/
lemma runSync_trace_prefix (p : Bool) (findPos : FindPosition) (oracle : RemoteOracle)
    (current : List BreakpointAdapter) (D : List BreakpointInfo) :
    ∃ t, (runSync p findPos oracle current (some D)).trace
      = Ev.runStart D :: (toDeleteOf current D).map (fun c => Ev.issueDelete c.breakpointInfo)
        ++ (toDeleteOf current D).map (settleDelete oracle) ++ t := by
  cases hall : (toDeleteOf current D).all (fun c => oracle.deleteOk c.breakpointInfo) with
  | false =>
    rw [runSync_delFail p findPos oracle current D hall]
    exact ⟨[], by simp⟩
  | true =>
    have hdel := List.all_eq_true.mp hall
    have hmapDel : (toDeleteOf current D).map (settleDelete oracle)
        = (toDeleteOf current D).map (fun c => Ev.completeDelete c.breakpointInfo) :=
      List.map_congr_left (fun c hc => by simp [settleDelete, hdel c hc])
    cases p with
    | true =>
      cases haddall : ((toAddOf current D).map
          (resolveNew findPos oracle.breakpointPositions)).all oracle.setBreakpointOk with
      | false =>
        rw [runSync_new_addFail findPos oracle current D hdel haddall]
        refine ⟨[Ev.getPositions]
          ++ ((toAddOf current D).map (resolveNew findPos oracle.breakpointPositions)).map
            Ev.issueAdd
          ++ ((toAddOf current D).map (resolveNew findPos oracle.breakpointPositions)).map
            (settleAddNew oracle), ?_⟩
        simp [List.append_assoc]
      | true =>
        rw [runSync_new_success findPos oracle current D hdel (List.all_eq_true.mp haddall)]
        refine ⟨[Ev.getPositions]
          ++ ((toAddOf current D).map (resolveNew findPos oracle.breakpointPositions)).map
            Ev.issueAdd
          ++ ((toAddOf current D).map (resolveNew findPos oracle.breakpointPositions)).map
            Ev.completeAdd
          ++ ((toAddOf current D).map (resolveNew findPos oracle.breakpointPositions)).map
            (fun d => Ev.verify d d.actualLine d.actualColumn)
          ++ [Ev.runEnd], ?_⟩
        simp [newRunTrace, newRunBody, resolvedToAdd, hmapDel, List.append_assoc]
    | false =>
      cases haddall : (toAddOf current D).all (fun d => (oracle.setBreakpointOld d).isSome) with
      | false =>
        rw [runSync_old_addFail findPos oracle current D hdel haddall]
        refine ⟨(toAddOf current D).map Ev.issueAdd
          ++ (toAddOf current D).map (settleAddOld oracle), ?_⟩
        simp [List.append_assoc]
      | true =>
        rw [runSync_old_success findPos oracle current D hdel (List.all_eq_true.mp haddall)]
        refine ⟨(toAddOf current D).map Ev.issueAdd
          ++ (toAddOf current D).map Ev.completeAdd
          ++ (oldResultsOf oracle current D).map (fun rd =>
              Ev.verify rd.2 (some (oldActualLine rd.1 rd.2)) (oldActualColumn rd.1 rd.2))
          ++ [Ev.runEnd], ?_⟩
        simp [oldRunTrace, oldRunBody, hmapDel, List.append_assoc]

/-- Whether an event is `runEnd`. -/
def isRunEnd : Ev → Bool
  | .runEnd => true
  | _ => false

lemma notin_runEnd (l : List Ev) (h : ∀ e ∈ l, isRunEnd e = false) : Ev.runEnd ∉ l :=
  fun hm => by
    have hx := h _ hm
    simp [isRunEnd] at hx

lemma isRunEnd_settleDelete (oracle : RemoteOracle) (c : BreakpointAdapter) :
    isRunEnd (settleDelete oracle c) = false := by
  by_cases h : oracle.deleteOk c.breakpointInfo = true <;> simp [settleDelete, h, isRunEnd]

lemma isRunEnd_settleAddNew (oracle : RemoteOracle) (d : BreakpointInfo) :
    isRunEnd (settleAddNew oracle d) = false := by
  by_cases h : oracle.setBreakpointOk d = true <;> simp [settleAddNew, h, isRunEnd]

lemma isRunEnd_settleAddOld (oracle : RemoteOracle) (d : BreakpointInfo) :
    isRunEnd (settleAddOld oracle d) = false := by
  by_cases h : (oracle.setBreakpointOld d).isSome = true <;> simp [settleAddOld, h, isRunEnd]

lemma forall_mem_cons_eq_false (P : Ev → Bool) (e : Ev) (l : List Ev)
    (h1 : P e = false) (h2 : ∀ x ∈ l, P x = false) : ∀ x ∈ e :: l, P x = false := by
  intro x hx
  rcases List.mem_cons.mp hx with rfl | hx2
  · exact h1
  · exact h2 x hx2

lemma forall_mem_singleton_eq_false (P : Ev → Bool) (e : Ev) (h : P e = false) :
    ∀ x ∈ [e], P x = false := by
  intro x hx
  rw [List.mem_singleton.mp hx]
  exact h

/-- C2, amended. During one `syncBreakpoints` run, all deletions of the batch
are issued concurrently before any result is awaited, and every issued deletion
settles individually (a successful one completes even when another one of the
batch rejects); likewise, once the additions are reached, the whole addition
batch is issued. But the claim's conclusion does not hold: if any individual
deletion (or addition) promise rejects, the awaited `Promise.all` rejects and
the run aborts — the installed set is not merged, `isSyncingBreakpoints` is
never cleared, and the run never finishes. -/
theorem syncBreakpoints_batch_issue_and_abort (p : Bool) (findPos : FindPosition)
    (oracle : RemoteOracle) (current : List BreakpointAdapter) (D : List BreakpointInfo) :
    (∀ c ∈ toDeleteOf current D,
      Ev.issueDelete c.breakpointInfo ∈ (runSync p findPos oracle current (some D)).trace)
    ∧ (∀ c ∈ toDeleteOf current D, oracle.deleteOk c.breakpointInfo = true →
      Ev.completeDelete c.breakpointInfo ∈ (runSync p findPos oracle current (some D)).trace)
    ∧ ((toDeleteOf current D).all (fun c => oracle.deleteOk c.breakpointInfo) = false →
      (runSync p findPos oracle current (some D)).isSyncingBreakpoints = true
      ∧ (runSync p findPos oracle current (some D)).currentBreakpoints = current
      ∧ Ev.runEnd ∉ (runSync p findPos oracle current (some D)).trace)
    ∧ ((∀ c ∈ toDeleteOf current D, oracle.deleteOk c.breakpointInfo = true) →
      ((toAddOf current D).map (resolveNew findPos oracle.breakpointPositions)).all
        oracle.setBreakpointOk = false →
      (runSync true findPos oracle current (some D)).isSyncingBreakpoints = true
      ∧ (runSync true findPos oracle current (some D)).currentBreakpoints = current
      ∧ Ev.runEnd ∉ (runSync true findPos oracle current (some D)).trace
      ∧ ∀ d ∈ (toAddOf current D).map (resolveNew findPos oracle.breakpointPositions),
          Ev.issueAdd d ∈ (runSync true findPos oracle current (some D)).trace)
    ∧ ((∀ c ∈ toDeleteOf current D, oracle.deleteOk c.breakpointInfo = true) →
      (toAddOf current D).all (fun d => (oracle.setBreakpointOld d).isSome) = false →
      (runSync false findPos oracle current (some D)).isSyncingBreakpoints = true
      ∧ (runSync false findPos oracle current (some D)).currentBreakpoints = current
      ∧ Ev.runEnd ∉ (runSync false findPos oracle current (some D)).trace
      ∧ ∀ d ∈ toAddOf current D,
          Ev.issueAdd d ∈ (runSync false findPos oracle current (some D)).trace) := by
  obtain ⟨t, ht⟩ := runSync_trace_prefix p findPos oracle current D
  refine ⟨?_, ?_, ?_, ?_, ?_⟩
  · intro c hc
    rw [ht]
    exact List.mem_append_left _ (List.mem_append_left _
      (List.mem_cons_of_mem _ (List.mem_map_of_mem _ hc)))
  · intro c hc hok
    rw [ht]
    have : Ev.completeDelete c.breakpointInfo = settleDelete oracle c := by
      simp [settleDelete, hok]
    rw [this]
    exact List.mem_append_left _ (List.mem_append_right _ (List.mem_map_of_mem _ hc))
  · intro hfail
    rw [runSync_delFail p findPos oracle current D hfail]
    refine ⟨rfl, rfl, ?_⟩
    apply notin_runEnd
    exact forall_mem_append_eq_false _ _ _
      (forall_mem_cons_eq_false _ _ _ rfl (forall_mem_map_eq_false _ _ _ (fun c => rfl)))
      (forall_mem_map_eq_false _ _ _ (isRunEnd_settleDelete oracle))
  · intro hdel hfail
    rw [runSync_new_addFail findPos oracle current D hdel hfail]
    refine ⟨rfl, rfl, ?_, ?_⟩
    · apply notin_runEnd
      exact forall_mem_append_eq_false _ _ _
        (forall_mem_append_eq_false _ _ _
          (forall_mem_append_eq_false _ _ _
            (forall_mem_append_eq_false _ _ _
              (forall_mem_cons_eq_false _ _ _ rfl
                (forall_mem_map_eq_false _ _ _ (fun c => rfl)))
              (forall_mem_map_eq_false _ _ _ (isRunEnd_settleDelete oracle)))
            (forall_mem_singleton_eq_false _ _ rfl))
          (forall_mem_map_eq_false _ _ _ (fun d => rfl)))
        (forall_mem_map_eq_false _ _ _ (isRunEnd_settleAddNew oracle))
    · intro d hd
      exact List.mem_append_left _ (List.mem_append_right _ (List.mem_map_of_mem _ hd))
  · intro hdel hfail
    rw [runSync_old_addFail findPos oracle current D hdel hfail]
    refine ⟨rfl, rfl, ?_, ?_⟩
    · apply notin_runEnd
      exact forall_mem_append_eq_false _ _ _
        (forall_mem_append_eq_false _ _ _
          (forall_mem_append_eq_false _ _ _
            (forall_mem_cons_eq_false _ _ _ rfl
              (forall_mem_map_eq_false _ _ _ (fun c => rfl)))
            (forall_mem_map_eq_false _ _ _ (isRunEnd_settleDelete oracle)))
          (forall_mem_map_eq_false _ _ _ (fun d => rfl)))
        (forall_mem_map_eq_false _ _ _ (isRunEnd_settleAddOld oracle))
    · intro d hd
      exact List.mem_append_left _ (List.mem_append_right _ (List.mem_map_of_mem _ hd))

/-- C2, counterexample: with an installed breakpoint, an empty desired set and
a rejecting `delete()`, the run issues the deletion, the deletion rejects — and
the run does not finish: the installed set is not merged, the in-flight flag
stays set, and no `runEnd` is ever reached, contradicting the claim that the
run "still finishes (merging the installed set and clearing the in-flight
flag)". -/
theorem syncBreakpoints_batch_counterexample :
    (runSync true fpId oracleDelFail [⟨bpLine10, .newProtocol⟩]
      (some [])).isSyncingBreakpoints = true
    ∧ (runSync true fpId oracleDelFail [⟨bpLine10, .newProtocol⟩]
      (some [])).currentBreakpoints = [⟨bpLine10, .newProtocol⟩]
    ∧ Ev.issueDelete bpLine10 ∈ (runSync true fpId oracleDelFail
      [⟨bpLine10, .newProtocol⟩] (some [])).trace
    ∧ Ev.rejectDelete bpLine10 ∈ (runSync true fpId oracleDelFail
      [⟨bpLine10, .newProtocol⟩] (some [])).trace
    ∧ Ev.runEnd ∉ (runSync true fpId oracleDelFail
      [⟨bpLine10, .newProtocol⟩] (some [])).trace := by
  refine ⟨?_, ?_, ?_, ?_, ?_⟩ <;> decide

/-- Witness for the amended C2 at a concrete input: the deletion of the lone
installed breakpoint is issued, and its rejection leaves the flag set with the
run never finishing. -/
theorem syncBreakpoints_batch_issue_and_abort_witness :
    Ev.issueDelete bpLine10 ∈ (runSync true fpId oracleDelFail
      [⟨bpLine10, .newProtocol⟩] (some [])).trace
    ∧ (runSync true fpId oracleDelFail [⟨bpLine10, .newProtocol⟩]
      (some [])).isSyncingBreakpoints = true
    ∧ Ev.runEnd ∉ (runSync true fpId oracleDelFail
      [⟨bpLine10, .newProtocol⟩] (some [])).trace := by
  have h := syncBreakpoints_batch_issue_and_abort true fpId oracleDelFail
    [⟨bpLine10, .newProtocol⟩] []
  exact ⟨h.1 ⟨bpLine10, .newProtocol⟩ (by decide), (h.2.2.1 (by decide)).1,
    (h.2.2.1 (by decide)).2.2⟩

/-! ## Claim C4: idempotence of reconciliation -/

lemma isEquivalent_iff (a b : BreakpointInfo) :
    a.isEquivalent b = true ↔ a.requestedBreakpoint = b.requestedBreakpoint := by
  simp [BreakpointInfo.isEquivalent]

lemma resolveNew_requested (findPos : FindPosition) (positions : List SourceLocation)
    (d : BreakpointInfo) :
    (resolveNew findPos positions d).requestedBreakpoint = d.requestedBreakpoint := rfl

lemma make_requested (d : BreakpointInfo) (r : OldSetBreakpointResult) :
    (OldProtocolBreakpointAdapter.make d r).breakpointInfo.requestedBreakpoint
      = d.requestedBreakpoint := rfl

lemma all_equiv_newRunCurrent (findPos : FindPosition) (oracle : RemoteOracle)
    (current : List BreakpointAdapter) (D : List BreakpointInfo) :
    ∀ c ∈ newRunCurrent findPos oracle current D,
      D.any (fun r => r.isEquivalent c.breakpointInfo) = true := by
  intro c hc
  rcases List.mem_append.mp hc with h | h
  · exact (List.mem_filter.mp h).2
  · obtain ⟨d, hd1, rfl⟩ := List.mem_map.mp h
    obtain ⟨d0, hd0, rfl⟩ := List.mem_map.mp hd1
    refine List.any_eq_true.mpr ⟨d0, (List.mem_filter.mp hd0).1, ?_⟩
    exact (isEquivalent_iff _ _).mpr (resolveNew_requested findPos _ d0).symm

lemma all_equiv_oldRunCurrent (oracle : RemoteOracle)
    (current : List BreakpointAdapter) (D : List BreakpointInfo) :
    ∀ c ∈ oldRunCurrent oracle current D,
      D.any (fun r => r.isEquivalent c.breakpointInfo) = true := by
  intro c hc
  rcases List.mem_append.mp hc with h | h
  · exact (List.mem_filter.mp h).2
  · obtain ⟨rd, hrd, rfl⟩ := List.mem_map.mp h
    obtain ⟨d0, hd0, rfl⟩ := List.mem_map.mp hrd
    refine List.any_eq_true.mpr ⟨d0, (List.mem_filter.mp hd0).1, ?_⟩
    exact (isEquivalent_iff _ _).mpr (make_requested d0 _).symm

lemma any_equiv_newRunCurrent (findPos : FindPosition) (oracle : RemoteOracle)
    (current : List BreakpointAdapter) (D : List BreakpointInfo) :
    ∀ d ∈ D, (newRunCurrent findPos oracle current D).any
      (fun c => d.isEquivalent c.breakpointInfo) = true := by
  intro d hd
  by_cases hc : current.any (fun c => d.isEquivalent c.breakpointInfo) = true
  · obtain ⟨c, hcmem, hceq⟩ := List.any_eq_true.mp hc
    refine List.any_eq_true.mpr ⟨c, List.mem_append_left _ ?_, hceq⟩
    exact List.mem_filter.mpr ⟨hcmem, List.any_eq_true.mpr ⟨d, hd, hceq⟩⟩
  · have hcf : current.any (fun c => d.isEquivalent c.breakpointInfo) = false :=
      eq_false_of_ne_true hc
    have hmem : d ∈ toAddOf current D :=
      List.mem_filter.mpr ⟨hd, by rw [hcf]; rfl⟩
    refine List.any_eq_true.mpr
      ⟨⟨resolveNew findPos oracle.breakpointPositions d, .newProtocol⟩,
        List.mem_append_right _ ?_, ?_⟩
    · exact List.mem_map_of_mem _ (List.mem_map_of_mem _ hmem)
    · exact (isEquivalent_iff _ _).mpr (resolveNew_requested findPos _ d).symm

lemma any_equiv_oldRunCurrent (oracle : RemoteOracle)
    (current : List BreakpointAdapter) (D : List BreakpointInfo) :
    ∀ d ∈ D, (oldRunCurrent oracle current D).any
      (fun c => d.isEquivalent c.breakpointInfo) = true := by
  intro d hd
  by_cases hc : current.any (fun c => d.isEquivalent c.breakpointInfo) = true
  · obtain ⟨c, hcmem, hceq⟩ := List.any_eq_true.mp hc
    refine List.any_eq_true.mpr ⟨c, List.mem_append_left _ ?_, hceq⟩
    exact List.mem_filter.mpr ⟨hcmem, List.any_eq_true.mpr ⟨d, hd, hceq⟩⟩
  · have hcf : current.any (fun c => d.isEquivalent c.breakpointInfo) = false :=
      eq_false_of_ne_true hc
    have hmem : d ∈ toAddOf current D :=
      List.mem_filter.mpr ⟨hd, by rw [hcf]; rfl⟩
    refine List.any_eq_true.mpr
      ⟨OldProtocolBreakpointAdapter.make d ((oracle.setBreakpointOld d).getD ⟨none⟩),
        List.mem_append_right _ ?_, ?_⟩
    · exact List.mem_map_of_mem (fun rd => OldProtocolBreakpointAdapter.make rd.2 rd.1)
        (List.mem_map_of_mem (fun d => ((oracle.setBreakpointOld d).getD ⟨none⟩, d)) hmem)
    · exact (isEquivalent_iff _ _).mpr (make_requested d _).symm

lemma toDeleteOf_eq_nil (current1 : List BreakpointAdapter) (D : List BreakpointInfo)
    (h : ∀ c ∈ current1, D.any (fun r => r.isEquivalent c.breakpointInfo) = true) :
    toDeleteOf current1 D = [] := by
  refine List.filter_eq_nil_iff.mpr ?_
  intro c hc
  rw [h c hc]
  simp

lemma toAddOf_eq_nil (current1 : List BreakpointAdapter) (D : List BreakpointInfo)
    (h : ∀ d ∈ D, current1.any (fun c => d.isEquivalent c.breakpointInfo) = true) :
    toAddOf current1 D = [] := by
  refine List.filter_eq_nil_iff.mpr ?_
  intro d hd
  rw [h d hd]
  simp

/-- C4. Idempotence: after a successful reconciliation run for desired set `D`,
running reconciliation again with the same `D` issues zero deletion operations
and zero addition operations — every installed breakpoint has an equivalence
match in `D` and every entry of `D` has an equivalence match among the
installed breakpoints. Holds for both protocol variants. -/
theorem syncBreakpoints_idempotent (p : Bool) (findPos : FindPosition)
    (oracle : RemoteOracle) (current : List BreakpointAdapter) (D : List BreakpointInfo)
    (hdel : ∀ b, oracle.deleteOk b = true)
    (haddN : ∀ b, oracle.setBreakpointOk b = true)
    (haddO : ∀ b, (oracle.setBreakpointOld b).isSome = true) :
    ((runSync p findPos oracle
      (runSync p findPos oracle current (some D)).currentBreakpoints
      (some D)).trace.countP isIssueDelete) = 0
    ∧ ((runSync p findPos oracle
      (runSync p findPos oracle current (some D)).currentBreakpoints
      (some D)).trace.countP isIssueAdd) = 0 := by
  cases p with
  | true =>
    have hrun1 : (runSync true findPos oracle current (some D)).currentBreakpoints
        = newRunCurrent findPos oracle current D := by
      rw [runSync_new_success findPos oracle current D (fun c _ => hdel _) (fun d _ => haddN _)]
    rw [hrun1]
    have hDel1 : toDeleteOf (newRunCurrent findPos oracle current D) D = [] :=
      toDeleteOf_eq_nil _ _ (all_equiv_newRunCurrent findPos oracle current D)
    have hAdd1 : toAddOf (newRunCurrent findPos oracle current D) D = [] :=
      toAddOf_eq_nil _ _ (any_equiv_newRunCurrent findPos oracle current D)
    rw [runSync_new_success findPos oracle _ D (fun c _ => hdel _) (fun d _ => haddN _)]
    constructor <;>
      simp [newRunTrace, newRunBody, resolvedToAdd, hDel1, hAdd1,
        isIssueDelete, isIssueAdd, List.countP_cons, List.countP_append]
  | false =>
    have hrun1 : (runSync false findPos oracle current (some D)).currentBreakpoints
        = oldRunCurrent oracle current D := by
      rw [runSync_old_success findPos oracle current D (fun c _ => hdel _) (fun d _ => haddO _)]
    rw [hrun1]
    have hDel1 : toDeleteOf (oldRunCurrent oracle current D) D = [] :=
      toDeleteOf_eq_nil _ _ (all_equiv_oldRunCurrent oracle current D)
    have hAdd1 : toAddOf (oldRunCurrent oracle current D) D = [] :=
      toAddOf_eq_nil _ _ (any_equiv_oldRunCurrent oracle current D)
    rw [runSync_old_success findPos oracle _ D (fun c _ => hdel _) (fun d _ => haddO _)]
    constructor <;>
      simp [oldRunTrace, oldRunBody, oldResultsOf, hDel1, hAdd1,
        isIssueDelete, isIssueAdd, List.countP_cons, List.countP_append]

/-- Witness for C4 at a concrete input: submitting `[bpLine10]` again after a
successful run for `[bpLine10]` issues no deletions and no additions. -/
theorem syncBreakpoints_idempotent_witness :
    ((runSync true fpId oracleOk
      (runSync true fpId oracleOk [] (some [bpLine10])).currentBreakpoints
      (some [bpLine10])).trace.countP isIssueDelete) = 0
    ∧ ((runSync true fpId oracleOk
      (runSync true fpId oracleOk [] (some [bpLine10])).currentBreakpoints
      (some [bpLine10])).trace.countP isIssueAdd) = 0 :=
  syncBreakpoints_idempotent true fpId oracleOk [] [bpLine10]
    (fun _ => rfl) (fun _ => rfl) (fun _ => rfl)

/-! ## Claim C5: equivalence-key uniqueness -/

/-- No two installed breakpoints share an equivalence key. -/
def uniqueKeys (l : List BreakpointAdapter) : Prop :=
  l.Pairwise (fun a b => a.breakpointInfo.isEquivalent b.breakpointInfo = false)

/-- No two entries of a desired set share an equivalence key. -/
def nodupKeys (D : List BreakpointInfo) : Prop :=
  D.Pairwise (fun a b => a.isEquivalent b = false)

instance (l : List BreakpointAdapter) : Decidable (uniqueKeys l) := by
  rw [uniqueKeys]
  infer_instance

instance (D : List BreakpointInfo) : Decidable (nodupKeys D) := by
  rw [nodupKeys]
  infer_instance

/-- C5, counterexample: a desired set containing the same breakpoint twice
(identical line, column, condition and log-message) is installed twice — the
to-add filter checks desired entries against the installed set only, never
against each other — so the installed set ends up holding two breakpoints with
the same equivalence key. -/
theorem equivalence_key_uniqueness_counterexample :
    ¬ uniqueKeys (runSync true fpId oracleOk []
      (some [bpLine10, bpLine10])).currentBreakpoints
    ∧ (runSync true fpId oracleOk []
      (some [bpLine10, bpLine10])).currentBreakpoints.length = 2 := by
  constructor
  · decide
  · decide

lemma runSync_current_cases (p : Bool) (findPos : FindPosition) (oracle : RemoteOracle)
    (current : List BreakpointAdapter) (D : List BreakpointInfo) :
    (runSync p findPos oracle current (some D)).currentBreakpoints = current
    ∨ (runSync p findPos oracle current (some D)).currentBreakpoints
      = newRunCurrent findPos oracle current D
    ∨ (runSync p findPos oracle current (some D)).currentBreakpoints
      = oldRunCurrent oracle current D := by
  cases hall : (toDeleteOf current D).all (fun c => oracle.deleteOk c.breakpointInfo) with
  | false =>
    left
    rw [runSync_delFail p findPos oracle current D hall]
  | true =>
    have hdel := List.all_eq_true.mp hall
    cases p with
    | true =>
      cases haddall : ((toAddOf current D).map
          (resolveNew findPos oracle.breakpointPositions)).all oracle.setBreakpointOk with
      | false =>
        left
        rw [runSync_new_addFail findPos oracle current D hdel haddall]
      | true =>
        right; left
        rw [runSync_new_success findPos oracle current D hdel (List.all_eq_true.mp haddall)]
    | false =>
      cases haddall : (toAddOf current D).all
          (fun d => (oracle.setBreakpointOld d).isSome) with
      | false =>
        left
        rw [runSync_old_addFail findPos oracle current D hdel haddall]
      | true =>
        right; right
        rw [runSync_old_success findPos oracle current D hdel (List.all_eq_true.mp haddall)]

lemma isEquivalent_resolve_resolve (findPos : FindPosition)
    (positions : List SourceLocation) (a b : BreakpointInfo) :
    (resolveNew findPos positions a).isEquivalent (resolveNew findPos positions b)
      = a.isEquivalent b := rfl

lemma isEquivalent_make_make (a b : BreakpointInfo) (r1 r2 : OldSetBreakpointResult) :
    (OldProtocolBreakpointAdapter.make a r1).breakpointInfo.isEquivalent
      (OldProtocolBreakpointAdapter.make b r2).breakpointInfo = a.isEquivalent b := rfl

lemma nodupKeys_toAddOf (current : List BreakpointAdapter) (D : List BreakpointInfo)
    (hD : nodupKeys D) : nodupKeys (toAddOf current D) :=
  hD.sublist (List.filter_sublist D)

lemma cross_keep_toAdd (current : List BreakpointAdapter) (D : List BreakpointInfo)
    (a : BreakpointAdapter) (ha : a ∈ keepOf current D)
    (d : BreakpointInfo) (hd : d ∈ toAddOf current D) :
    a.breakpointInfo.isEquivalent d = false := by
  rcases Bool.eq_false_or_eq_true (a.breakpointInfo.isEquivalent d) with h | h
  case inr => exact h
  exfalso
  obtain ⟨hac, _⟩ := List.mem_filter.mp ha
  obtain ⟨hdD, hdn⟩ := List.mem_filter.mp hd
  have hreq : a.breakpointInfo.requestedBreakpoint = d.requestedBreakpoint :=
    (isEquivalent_iff _ _).mp h
  have hda : d.isEquivalent a.breakpointInfo = true :=
    (isEquivalent_iff _ _).mpr hreq.symm
  have : current.any (fun c => d.isEquivalent c.breakpointInfo) = true :=
    List.any_eq_true.mpr ⟨a, hac, hda⟩
  rw [this] at hdn
  simp at hdn

lemma uniqueKeys_newRunCurrent (findPos : FindPosition) (oracle : RemoteOracle)
    (current : List BreakpointAdapter) (D : List BreakpointInfo)
    (hcu : uniqueKeys current) (hD : nodupKeys D) :
    uniqueKeys (newRunCurrent findPos oracle current D) := by
  rw [uniqueKeys, newRunCurrent, List.pairwise_append]
  refine ⟨hcu.sublist (List.filter_sublist current), ?_, ?_⟩
  · rw [List.pairwise_map, resolvedToAdd, List.pairwise_map]
    exact (nodupKeys_toAddOf current D hD).imp (fun hab => hab)
  · intro a ha b hb
    obtain ⟨d, hd1, rfl⟩ := List.mem_map.mp hb
    obtain ⟨d0, hd0, rfl⟩ := List.mem_map.mp hd1
    exact cross_keep_toAdd current D a ha d0 hd0
  
lemma uniqueKeys_oldRunCurrent (oracle : RemoteOracle)
    (current : List BreakpointAdapter) (D : List BreakpointInfo)
    (hcu : uniqueKeys current) (hD : nodupKeys D) :
    uniqueKeys (oldRunCurrent oracle current D) := by
  rw [uniqueKeys, oldRunCurrent, List.pairwise_append]
  refine ⟨hcu.sublist (List.filter_sublist current), ?_, ?_⟩
  · rw [List.pairwise_map, oldResultsOf, List.pairwise_map]
    exact (nodupKeys_toAddOf current D hD).imp (fun hab => hab)
  · intro a ha b hb
    obtain ⟨rd, hrd, rfl⟩ := List.mem_map.mp hb
    obtain ⟨d0, hd0, rfl⟩ := List.mem_map.mp hrd
    exact cross_keep_toAdd current D a ha d0 hd0

lemma issueAdd_mem_new (findPos : FindPosition) (oracle : RemoteOracle)
    (current : List BreakpointAdapter) (D : List BreakpointInfo)
    (hdel : ∀ c ∈ toDeleteOf current D, oracle.deleteOk c.breakpointInfo = true) :
    ∀ d ∈ (toAddOf current D).map (resolveNew findPos oracle.breakpointPositions),
      Ev.issueAdd d ∈ (runSync true findPos oracle current (some D)).trace := by
  intro d hd
  cases haddall : ((toAddOf current D).map
      (resolveNew findPos oracle.breakpointPositions)).all oracle.setBreakpointOk with
  | false =>
    rw [runSync_new_addFail findPos oracle current D hdel haddall]
    exact List.mem_append_left _ (List.mem_append_right _ (List.mem_map_of_mem _ hd))
  | true =>
    rw [runSync_new_success findPos oracle current D hdel (List.all_eq_true.mp haddall)]
    show Ev.issueAdd d ∈ newRunTrace findPos oracle current D
    rw [newRunTrace]
    refine List.mem_append_left _ (List.mem_cons_of_mem _ ?_)
    rw [newRunBody]
    exact List.mem_append_left _ (List.mem_append_left _ (List.mem_append_right _
      (List.mem_map_of_mem _ hd)))

lemma issueAdd_mem_old (findPos : FindPosition) (oracle : RemoteOracle)
    (current : List BreakpointAdapter) (D : List BreakpointInfo)
    (hdel : ∀ c ∈ toDeleteOf current D, oracle.deleteOk c.breakpointInfo = true) :
    ∀ d ∈ toAddOf current D,
      Ev.issueAdd d ∈ (runSync false findPos oracle current (some D)).trace := by
  intro d hd
  cases haddall : (toAddOf current D).all (fun d => (oracle.setBreakpointOld d).isSome) with
  | false =>
    rw [runSync_old_addFail findPos oracle current D hdel haddall]
    exact List.mem_append_left _ (List.mem_append_right _ (List.mem_map_of_mem _ hd))
  | true =>
    rw [runSync_old_success findPos oracle current D hdel (List.all_eq_true.mp haddall)]
    show Ev.issueAdd d ∈ oldRunTrace oracle current D
    rw [oldRunTrace]
    refine List.mem_append_left _ (List.mem_cons_of_mem _ ?_)
    rw [oldRunBody]
    exact List.mem_append_left _ (List.mem_append_left _ (List.mem_append_right _
      (List.mem_map_of_mem _ hd)))

/-- C5, amended. Provided every submitted desired set contains at most one
entry per equivalence key, the installed set — which is only replaced atomically
at the end of a run — always contains at most one breakpoint per equivalence
key (whatever the remote outcomes: an aborted run leaves it unchanged); and
changing any one field of a breakpoint forces a deletion of the old breakpoint
and an addition of the new one, never a silent no-op. -/
theorem equivalence_key_uniqueness_amended (p : Bool) (findPos : FindPosition)
    (oracle : RemoteOracle) :
    (∀ current D, uniqueKeys current → nodupKeys D →
      uniqueKeys (runSync p findPos oracle current (some D)).currentBreakpoints)
    ∧ (∀ (c : BreakpointAdapter) (d : BreakpointInfo),
      (∀ b, oracle.deleteOk b = true) →
      d.isEquivalent c.breakpointInfo = false →
      Ev.issueDelete c.breakpointInfo ∈ (runSync p findPos oracle [c] (some [d])).trace
      ∧ Ev.issueAdd (resolveNew findPos oracle.breakpointPositions d)
        ∈ (runSync true findPos oracle [c] (some [d])).trace
      ∧ Ev.issueAdd d ∈ (runSync false findPos oracle [c] (some [d])).trace) := by
  constructor
  · intro current D hcu hD
    rcases runSync_current_cases p findPos oracle current D with h | h | h <;> rw [h]
    · exact hcu
    · exact uniqueKeys_newRunCurrent findPos oracle current D hcu hD
    · exact uniqueKeys_oldRunCurrent oracle current D hcu hD
  · intro c d hdel hne
    have hdelmem : c ∈ toDeleteOf [c] [d] := by
      rw [toDeleteOf]
      refine List.mem_filter.mpr ⟨List.mem_cons_self c [], ?_⟩
      simp [hne]
    have haddmem : d ∈ toAddOf [c] [d] := by
      rw [toAddOf]
      refine List.mem_filter.mpr ⟨List.mem_cons_self d [], ?_⟩
      simp [hne]
    refine ⟨?_, ?_, ?_⟩
    · obtain ⟨t, ht⟩ := runSync_trace_prefix p findPos oracle [c] [d]
      rw [ht]
      exact List.mem_append_left _ (List.mem_append_left _
        (List.mem_cons_of_mem _ (List.mem_map_of_mem _ hdelmem)))
    · exact issueAdd_mem_new findPos oracle [c] [d] (fun x _ => hdel _) _
        (List.mem_map_of_mem _ haddmem)
    · exact issueAdd_mem_old findPos oracle [c] [d] (fun x _ => hdel _) d haddmem

/-- A breakpoint at line 10 with condition `x>1`. -/
def bpCondA : BreakpointInfo :=
  { requestedBreakpoint := ⟨10, some 0, some "x>1".toList, none⟩ }

/-- A breakpoint at line 10 with condition `x>2`: same position as `bpCondA`,
different condition, hence a different equivalence key. -/
def bpCondB : BreakpointInfo :=
  { requestedBreakpoint := ⟨10, some 0, some "x>2".toList, none⟩ }

/-- Witness for the amended C5 at concrete inputs: a singleton desired set
keeps the installed set duplicate-free, and replacing a breakpoint's condition
at the same position issues a delete of the old and an add of the new. -/
theorem equivalence_key_uniqueness_amended_witness :
    uniqueKeys (runSync true fpId oracleOk [] (some [bpLine10])).currentBreakpoints
    ∧ Ev.issueDelete bpCondA
      ∈ (runSync true fpId oracleOk [⟨bpCondA, .newProtocol⟩] (some [bpCondB])).trace
    ∧ Ev.issueAdd (resolveNew fpId oracleOk.breakpointPositions bpCondB)
      ∈ (runSync true fpId oracleOk [⟨bpCondA, .newProtocol⟩] (some [bpCondB])).trace :=
  ⟨(equivalence_key_uniqueness_amended true fpId oracleOk).1 [] [bpLine10]
      (by decide) (by decide),
   ((equivalence_key_uniqueness_amended true fpId oracleOk).2 ⟨bpCondA, .newProtocol⟩
      bpCondB (fun _ => rfl) (by decide)).1,
   ((equivalence_key_uniqueness_amended true fpId oracleOk).2 ⟨bpCondA, .newProtocol⟩
      bpCondB (fun _ => rfl) (by decide)).2.1⟩

/-! ## Claim C7: legacy-protocol actual-position fallback -/

/-- Whether an event is a verification notification. -/
def isVerify : Ev → Bool
  | .verify _ _ _ => true
  | _ => false

lemma filter_eq_nil_of_false (P : Ev → Bool) (l : List Ev)
    (h : ∀ e ∈ l, P e = false) : l.filter P = [] :=
  List.filter_eq_nil_iff.mpr (fun e he => by rw [h e he]; simp)

lemma isVerify_settleDelete (oracle : RemoteOracle) (c : BreakpointAdapter) :
    isVerify (settleDelete oracle c) = false := by
  by_cases h : oracle.deleteOk c.breakpointInfo = true <;> simp [settleDelete, h, isVerify]

lemma isVerify_settleAddOld (oracle : RemoteOracle) (d : BreakpointInfo) :
    isVerify (settleAddOld oracle d) = false := by
  by_cases h : (oracle.setBreakpointOld d).isSome = true <;> simp [settleAddOld, h, isVerify]

/-- C7. Legacy-protocol actual-position fallback: in a successful
legacy-protocol run, each added breakpoint is reported to the verification sink
at — and its descriptor's actual line/column become — `oldActualLine` /
`oldActualColumn` of its `setBreakpoint` result: the runtime's reported actual
location when there is one, else the requested line and the requested column
(which may itself be absent). -/
theorem old_protocol_actual_position (findPos : FindPosition) (oracle : RemoteOracle)
    (current : List BreakpointAdapter) (D : List BreakpointInfo)
    (hdel : ∀ b, oracle.deleteOk b = true)
    (hadd : ∀ b, (oracle.setBreakpointOld b).isSome = true) :
    ((runSync false findPos oracle current (some D)).trace.filter isVerify
      = (toAddOf current D).map (fun d =>
          Ev.verify d (some (oldActualLine ((oracle.setBreakpointOld d).getD ⟨none⟩) d))
            (oldActualColumn ((oracle.setBreakpointOld d).getD ⟨none⟩) d)))
    ∧ ((runSync false findPos oracle current (some D)).currentBreakpoints
      = keepOf current D ++ (toAddOf current D).map (fun d =>
          OldProtocolBreakpointAdapter.make d ((oracle.setBreakpointOld d).getD ⟨none⟩))) := by
  rw [runSync_old_success findPos oracle current D (fun c _ => hdel _) (fun d _ => hadd _)]
  constructor
  · show (oldRunTrace oracle current D).filter isVerify = _
    have h1 : ((toDeleteOf current D).map
        (fun c => Ev.issueDelete c.breakpointInfo)).filter isVerify = [] :=
      filter_eq_nil_of_false _ _ (forall_mem_map_eq_false _ _ _ (fun c => rfl))
    have h2 : ((toDeleteOf current D).map
        (fun c => Ev.completeDelete c.breakpointInfo)).filter isVerify = [] :=
      filter_eq_nil_of_false _ _ (forall_mem_map_eq_false _ _ _ (fun c => rfl))
    have h3 : ((toAddOf current D).map Ev.issueAdd).filter isVerify = [] :=
      filter_eq_nil_of_false _ _ (forall_mem_map_eq_false _ _ _ (fun d => rfl))
    have h4 : ((toAddOf current D).map Ev.completeAdd).filter isVerify = [] :=
      filter_eq_nil_of_false _ _ (forall_mem_map_eq_false _ _ _ (fun d => rfl))
    have h5 : ((oldResultsOf oracle current D).map (fun rd =>
        Ev.verify rd.2 (some (oldActualLine rd.1 rd.2))
          (oldActualColumn rd.1 rd.2))).filter isVerify
        = (oldResultsOf oracle current D).map (fun rd =>
          Ev.verify rd.2 (some (oldActualLine rd.1 rd.2)) (oldActualColumn rd.1 rd.2)) :=
      List.filter_eq_self.mpr (fun e he => by
        obtain ⟨rd, _, rfl⟩ := List.mem_map.mp he
        rfl)
    rw [oldRunTrace, oldRunBody]
    simp only [List.cons_append, List.append_assoc, List.filter_append, List.filter_cons,
      h1, h2, h3, h4, h5, isVerify, List.filter_nil, List.nil_append, List.append_nil,
      Bool.false_eq_true, if_false, if_true]
    rw [oldResultsOf, List.map_map]
    rfl
  · show oldRunCurrent oracle current D = _
    rw [oldRunCurrent, oldResultsOf, List.map_map]
    rfl

/-- An oracle whose legacy `setBreakpoint` reports actual location line 7,
column 3 for every breakpoint. -/
def oracleOldAuth : RemoteOracle :=
  { deleteOk := fun _ => true, breakpointPositions := [],
    setBreakpointOk := fun _ => true,
    setBreakpointOld := fun _ => some ⟨some ⟨7, 3⟩⟩ }

/-- A breakpoint requested at line 5, column 2. -/
def bpLine5 : BreakpointInfo := { requestedBreakpoint := ⟨5, some 2, none, none⟩ }

/-- Witness for C7 at concrete inputs: when the runtime reports an actual
location (line 7, column 3), that location is the one verified; when it reports
none (`oracleOk`), the requested position (line 5, column 2) is verified
instead. -/
theorem old_protocol_actual_position_witness :
    ((runSync false fpId oracleOldAuth [] (some [bpLine5])).trace.filter isVerify
      = [Ev.verify bpLine5 (some 7) (some 3)])
    ∧ ((runSync false fpId oracleOldAuth [] (some [bpLine5])).currentBreakpoints
      = [⟨{ bpLine5 with actualLine := some 7, actualColumn := some 3 }, .oldProtocol⟩])
    ∧ ((runSync false fpId oracleOk [] (some [bpLine5])).trace.filter isVerify
      = [Ev.verify bpLine5 (some 5) (some 2)])
    ∧ ((runSync false fpId oracleOk [] (some [bpLine5])).currentBreakpoints
      = [⟨{ bpLine5 with actualLine := some 5, actualColumn := some 2 }, .oldProtocol⟩]) := by
  have h1 := old_protocol_actual_position fpId oracleOldAuth [] [bpLine5]
    (fun _ => rfl) (fun _ => rfl)
  have h2 := old_protocol_actual_position fpId oracleOk [] [bpLine5]
    (fun _ => rfl) (fun _ => rfl)
  exact ⟨h1.1, h1.2, h2.1, h2.2⟩

/-! ## Claim C1: single-flight back-to-back submissions -/

/-- The desired set observed by a `runStart` event, if any. -/
def runStartPayload : Ev → Option (List BreakpointInfo)
  | .runStart D => some D
  | _ => none

/-- The desired sets observed by the reconciliation runs of a trace, in order. -/
def runStartsOf (tr : List Ev) : List (List BreakpointInfo) :=
  tr.filterMap runStartPayload

/-- Whether an event marks the start or the end of a run. -/
def isRunMarker : Ev → Bool
  | .runStart _ => true
  | .runEnd => true
  | _ => false

lemma runStartPayload_eq_none (e : Ev) (h : isRunMarker e = false) :
    runStartPayload e = none := by
  cases e <;> simp_all [isRunMarker, runStartPayload]

lemma newRunBody_no_marker (findPos : FindPosition) (oracle : RemoteOracle)
    (current : List BreakpointAdapter) (D : List BreakpointInfo) :
    ∀ e ∈ newRunBody findPos oracle current D, isRunMarker e = false := by
  rw [newRunBody]
  exact forall_mem_append_eq_false _ _ _
    (forall_mem_append_eq_false _ _ _
      (forall_mem_append_eq_false _ _ _
        (forall_mem_append_eq_false _ _ _
          (forall_mem_append_eq_false _ _ _
            (forall_mem_map_eq_false _ _ _ (fun c => rfl))
            (forall_mem_map_eq_false _ _ _ (fun c => rfl)))
          (forall_mem_singleton_eq_false _ _ rfl))
        (forall_mem_map_eq_false _ _ _ (fun d => rfl)))
      (forall_mem_map_eq_false _ _ _ (fun d => rfl)))
    (forall_mem_map_eq_false _ _ _ (fun d => rfl))

lemma runStartsOf_newRunTrace (findPos : FindPosition) (oracle : RemoteOracle)
    (current : List BreakpointAdapter) (D : List BreakpointInfo) :
    runStartsOf (newRunTrace findPos oracle current D) = [D] := by
  have hbody : (newRunBody findPos oracle current D).filterMap runStartPayload = [] :=
    List.filterMap_eq_nil_iff.mpr (fun e he =>
      runStartPayload_eq_none e (newRunBody_no_marker findPos oracle current D e he))
  rw [runStartsOf, newRunTrace]
  rw [List.cons_append, List.filterMap_cons]
  simp only [runStartPayload]
  rw [List.filterMap_append, hbody]
  rfl

lemma updateBreakpoints_twice (current : List BreakpointAdapter)
    (S1 S2 : List BreakpointInfo) :
    updateBreakpoints S2 (updateBreakpoints S1 (initState current)) =
      { currentBreakpoints := current, desiredBreakpoints := some S2,
        isSyncingBreakpoints := true,
        phase := .atDeletions (some S1) (keepOf current S1) (toDeleteOf current S1),
        trace := Ev.runStart S1 ::
          (toDeleteOf current S1).map (fun c => Ev.issueDelete c.breakpointInfo) } := rfl

/-- The back-to-back scenario with every remote operation succeeding: the first
run observes and applies `S1`; the second submission only parks `S2` (the
in-flight flag blocks a second start); when the first run finishes it starts
exactly one further run, which observes `S2` and reconciles it against the
post-`S1` installed set. -/
lemma backToBack_success (findPos : FindPosition) (oracle : RemoteOracle)
    (current : List BreakpointAdapter) (S1 S2 : List BreakpointInfo)
    (hdel : ∀ b, oracle.deleteOk b = true)
    (hadd : ∀ b, oracle.setBreakpointOk b = true) :
    backToBack findPos oracle current S1 S2 =
      { currentBreakpoints := newRunCurrent findPos oracle
          (newRunCurrent findPos oracle current S1) S2,
        desiredBreakpoints := none, isSyncingBreakpoints := false, phase := .idle,
        trace := newRunTrace findPos oracle current S1
          ++ newRunTrace findPos oracle (newRunCurrent findPos oracle current S1) S2 } := by
  have hallDelAny : ∀ l : List BreakpointAdapter,
      l.all (fun c => oracle.deleteOk c.breakpointInfo) = true :=
    fun l => List.all_eq_true.mpr (fun c _ => hdel _)
  have hallAddAny : ∀ l : List BreakpointInfo, l.all oracle.setBreakpointOk = true :=
    fun l => List.all_eq_true.mpr (fun d _ => hadd _)
  have hmapDelAny : ∀ l : List BreakpointAdapter, l.map (settleDelete oracle)
      = l.map (fun c => Ev.completeDelete c.breakpointInfo) :=
    fun l => List.map_congr_left (fun c _ => by simp [settleDelete, hdel])
  have hmapAddAny : ∀ l : List BreakpointInfo, l.map (settleAddNew oracle)
      = l.map Ev.completeAdd :=
    fun l => List.map_congr_left (fun d _ => by simp [settleAddNew, hadd])
  simp only [backToBack]
  rw [updateBreakpoints_twice,
    resumeStep_atDeletions_ok_new _ _ _ _ _ _ _ _ _ (hallDelAny _),
    resumeStep_atPositions,
    resumeStep_atAdditionsNew_ok _ _ _ _ _ _ _ _ (hallAddAny _),
    checkAndSyncNew_pending _ S2 rfl rfl, doStart_some,
    resumeStep_atDeletions_ok_new _ _ _ _ _ _ _ _ _ (hallDelAny _),
    resumeStep_atPositions,
    resumeStep_atAdditionsNew_ok _ _ _ _ _ _ _ _ (hallAddAny _),
    checkAndSyncNew_none _ rfl]
  simp only [newRunTrace, newRunBody, newRunCurrent, resolvedToAdd, MState.mk.injEq,
    List.nil_append, List.cons_append, List.append_assoc, hmapDelAny, hmapAddAny]

/-- C1, counterexample: under the modern protocol, two back-to-back
`updateBreakpoints` submissions produce two reconciliation runs — the first one
observes the first (stale) desired set and applies it: `setBreakpoint` is
issued and a verification reported for the line-10 breakpoint, which the final
set `[bpLine20]` does not contain. The stale first set therefore is applied,
contradicting the claim. -/
theorem single_flight_counterexample :
    runStartsOf (backToBack fpId oracleOk [] [bpLine10] [bpLine20]).trace
      = [[bpLine10], [bpLine20]]
    ∧ Ev.issueAdd bpLine10R ∈ (backToBack fpId oracleOk [] [bpLine10] [bpLine20]).trace
    ∧ Ev.verify bpLine10R (some 10) (some 0)
      ∈ (backToBack fpId oracleOk [] [bpLine10] [bpLine20]).trace
    ∧ bpLine10.isEquivalent bpLine20 = false := by
  refine ⟨?_, ?_, ?_, ?_⟩ <;> decide

/-- C1, amended. Under the modern protocol, with the remote operations
succeeding: at most one run is in flight at any time (guarded by
`isSyncingBreakpoints`), and two back-to-back submissions produce exactly two
runs in sequence — the first observes and applies the first set, then exactly
one further run observes the second (final) set, starting only after the first
run has merged the installed set and cleared the flag (the two runs never
overlap and never race on the same installed set); the final installed set is
the second run's reconciliation of the second set against the post-first-run
state. -/
theorem single_flight_back_to_back (findPos : FindPosition) (oracle : RemoteOracle)
    (current : List BreakpointAdapter) (S1 S2 : List BreakpointInfo)
    (hdel : ∀ b, oracle.deleteOk b = true)
    (hadd : ∀ b, oracle.setBreakpointOk b = true) :
    runStartsOf (backToBack findPos oracle current S1 S2).trace = [S1, S2]
    ∧ (backToBack findPos oracle current S1 S2).trace
      = (Ev.runStart S1 :: newRunBody findPos oracle current S1 ++ [Ev.runEnd])
        ++ (Ev.runStart S2 :: newRunBody findPos oracle
            (newRunCurrent findPos oracle current S1) S2 ++ [Ev.runEnd])
    ∧ (∀ e ∈ newRunBody findPos oracle current S1, isRunMarker e = false)
    ∧ (∀ e ∈ newRunBody findPos oracle
        (newRunCurrent findPos oracle current S1) S2, isRunMarker e = false)
    ∧ (backToBack findPos oracle current S1 S2).isSyncingBreakpoints = false
    ∧ (backToBack findPos oracle current S1 S2).currentBreakpoints
      = (runSync true findPos oracle
          (runSync true findPos oracle current (some S1)).currentBreakpoints
          (some S2)).currentBreakpoints := by
  have hb := backToBack_success findPos oracle current S1 S2 hdel hadd
  have h1 : (runSync true findPos oracle current (some S1)).currentBreakpoints
      = newRunCurrent findPos oracle current S1 := by
    rw [runSync_new_success findPos oracle current S1 (fun c _ => hdel _) (fun d _ => hadd _)]
  refine ⟨?_, ?_, newRunBody_no_marker findPos oracle current S1,
    newRunBody_no_marker findPos oracle _ S2, ?_, ?_⟩
  · rw [hb]
    show runStartsOf (newRunTrace findPos oracle current S1
      ++ newRunTrace findPos oracle (newRunCurrent findPos oracle current S1) S2) = _
    rw [runStartsOf, List.filterMap_append, ← runStartsOf, ← runStartsOf,
      runStartsOf_newRunTrace, runStartsOf_newRunTrace]
    rfl
  · rw [hb]
    rfl
  · rw [hb]
  · rw [hb, h1]
    rw [runSync_new_success findPos oracle _ S2 (fun c _ => hdel _) (fun d _ => hadd _)]

/-- Witness for the amended C1 at concrete inputs. -/
theorem single_flight_back_to_back_witness :
    runStartsOf (backToBack fpId oracleOk [] [bpLine10] [bpLine20]).trace
      = [[bpLine10], [bpLine20]]
    ∧ (backToBack fpId oracleOk [] [bpLine10] [bpLine20]).isSyncingBreakpoints = false
    ∧ (backToBack fpId oracleOk [] [bpLine10] [bpLine20]).currentBreakpoints
      = (runSync true fpId oracleOk
          (runSync true fpId oracleOk [] (some [bpLine10])).currentBreakpoints
          (some [bpLine20])).currentBreakpoints := by
  have h := single_flight_back_to_back fpId oracleOk [] [bpLine10] [bpLine20]
    (fun _ => rfl) (fun _ => rfl)
  exact ⟨h.1, h.2.2.2.2.1, h.2.2.2.2.2⟩

end VsFirefoxDebug
